import Mathlib

/-!
# jtt1078: HLS segmenting sink and GB28181 UDP ingest adapter

A shallow embedding of `hls/hls_stream.go` (the `TransStream` sink that muxes
packets into rotating MPEG-TS segment files and maintains a bounded playlist)
and of `gb28181/source_udp.go` (the adapter that copies RTP packets into pool
blocks before handing them to the jitter buffer), followed by theorems about
rotation, retention, consumer hand-off, error handling and write buffering.

Conventions of the embedding.

* Mutable Go state is passed explicitly: every method takes the receiver and
  the operating-system `World` and returns the updated pair.
* A method result of `none` means that the call does not return: a Go
  run-time panic (nil interface call, slice bounds out of range), or, for the
  unbounded retry loop of `createSegment`, exhausted fuel.
* Go `int`/`int64` values are mathematical integers; lengths and sizes are
  natural numbers; bytes are natural numbers.
* `float32` arithmetic is modelled exactly (round to nearest, ties to even)
  on the values that occur: 64-bit integers and their quotient by 90000.
-/

/-! ## float32 -/

/-- A finite binary32 value `(-1)^neg * mant * 2^exp`. Results of the
operations below are normalised: `mant = 0`, or `2^23 ≤ mant < 2^24`. The
exponent is not clamped; the values that occur here (integers of magnitude
below `2^63` and their quotients by 90000) are all in the normal range. -/
structure F32 where
  neg : Bool
  mant : Nat
  exp : Int
deriving DecidableEq, Repr

namespace F32

/-- Positive zero. -/
def zero : F32 := ⟨false, 0, 0⟩

/-- Number of binary digits of `n`, by repeated halving (`fuel ≥ n` suffices). -/
def bitLen : Nat → Nat → Nat
  | 0, _ => 0
  | fuel + 1, n => if n = 0 then 0 else bitLen fuel (n / 2) + 1

/-- Floor of the binary logarithm (0 at 0). -/
def log2 (n : Nat) : Nat := bitLen n n - 1

/-- The fraction `num / (den * 2^e)` with the power of two moved to the
side that keeps both parts natural numbers. -/
def scale (num den : Nat) (e : Int) : Nat × Nat :=
  if 0 ≤ e then (num, den * 2 ^ e.toNat) else (num * 2 ^ (-e).toNat, den)

/-- Nearest integer to `n / d`, ties to the even neighbour. -/
def nearestEven (n d : Nat) : Nat :=
  if d < 2 * (n % d) ∨ (2 * (n % d) = d ∧ (n / d) % 2 = 1) then n / d + 1 else n / d

/-- Round the positive fraction `num / den` to 24 significant bits:
returns `(m, e)` with the rounded value `m * 2^e`. -/
def roundRatio (num den : Nat) : Nat × Int :=
  let e0 : Int := (log2 num : Int) - (log2 den : Int) - 24
  let e : Int := if 2 ^ 24 * (scale num den e0).2 ≤ (scale num den e0).1 then e0 + 1 else e0
  let m := nearestEven (scale num den e).1 (scale num den e).2
  if m = 2 ^ 24 then (2 ^ 23, e + 1) else (m, e)

/-- Go conversion `float32(i)` of an integer. -/
def ofInt (i : Int) : F32 :=
  if i = 0 then zero
  else ⟨decide (i < 0), (roundRatio i.natAbs 1).1, (roundRatio i.natAbs 1).2⟩

/-- Go `a / b` on float32 for a non-zero divisor. -/
def div (a b : F32) : F32 :=
  if a.mant = 0 then zero
  else ⟨xor a.neg b.neg, (roundRatio a.mant b.mant).1,
        (roundRatio a.mant b.mant).2 + a.exp - b.exp⟩

/-- The value of `a` in units of `2^e`, for `e ≤ a.exp`. -/
def signed (a : F32) (e : Int) : Int :=
  (if a.neg then -1 else 1) * ((a.mant * 2 ^ (a.exp - e).toNat : Nat) : Int)

/-- Go `a >= b` on float32. -/
def ge (a b : F32) : Bool :=
  decide (signed b (min a.exp b.exp) ≤ signed a (min a.exp b.exp))

end F32

/-! ## The operating system: files, handles, injected failures -/

/-- A byte. -/
abbrev Byte := Nat

/-- The error classes of package `os` that the program distinguishes. -/
inductive OsError where
  | permission
  | timeout
  | notExist
  | closed
  | invalid
  | other
deriving DecidableEq, Repr

namespace os

/-- Go `os.IsPermission`. -/
def IsPermission (e : OsError) : Bool := e == OsError.permission

/-- Go `os.IsTimeout`. -/
def IsTimeout (e : OsError) : Bool := e == OsError.timeout

/-- Go `os.IsNotExist`. -/
def IsNotExist (e : OsError) : Bool := e == OsError.notExist

/-- An `*os.File` that is not nil: its descriptor and the path it was opened at. -/
structure File where
  fd : Nat
  name : String
deriving DecidableEq, Repr

end os

namespace libhls

/-- One playlist entry of `libhls.M3U8Writer`. -/
structure Segment where
  Duration : F32
  Url : String
  Sequence : Int
  Path : String
deriving DecidableEq, Repr

end libhls

/-- Identity of a waiting playlist consumer (`stream.SinkID`). -/
abbrev SinkID := Nat

/-- Calls that leave the sink, in the order they are made. -/
inductive Event where
  | openFile (path : String) (err : Option OsError)
  | write (fd : Nat) (data : List Byte) (err : Option OsError)
  | close (fd : Nat) (err : Option OsError)
  | remove (path : String) (err : Option OsError)
  | seek (fd : Nat) (err : Option OsError)
  | truncate (fd : Nat) (err : Option OsError)
  | mkdirAll (path : String) (err : Option OsError)
  | addSegment (seg : libhls.Segment)
  | sendM3U8Data (sink : SinkID) (text : String)
  | cbNil (sink : SinkID)
deriving DecidableEq, Repr

/-- The world outside the sink: regular files by path, the descriptors that
are open, an oracle `fault` that makes the `clock`-th operating-system call
fail with the given error, and the trace of external calls made so far. -/
structure World where
  files : List (String × List Byte)
  openFds : List Nat
  nextFd : Nat
  clock : Nat
  fault : Nat → Option OsError
  trace : List Event

namespace World

/-- Record one external call that reached the operating system. -/
def step (w : World) (ev : Event) : World :=
  { w with clock := w.clock + 1, trace := w.trace ++ [ev] }

/-- Record a call that does not reach the operating system. -/
def note (w : World) (ev : Event) : World :=
  { w with trace := w.trace ++ [ev] }

/-- Contents of the file at `path`, if there is one. -/
def read (w : World) (path : String) : Option (List Byte) :=
  w.files.lookup path

/-- Whether a file exists at `path`. -/
def fileExists (w : World) (path : String) : Bool :=
  (w.files.lookup path).isSome

end World

/-- Replace the contents of the file at `path`, creating it if absent. -/
def putFile (files : List (String × List Byte)) (path : String) (data : List Byte) :
    List (String × List Byte) :=
  (path, data) :: files.filter (fun p => p.1 != path)

/-- Delete the file at `path`. -/
def dropFile (files : List (String × List Byte)) (path : String) :
    List (String × List Byte) :=
  files.filter (fun p => p.1 != path)

/-- Append to the file at `path`; a file that has been unlinked stays absent. -/
def appendFile (files : List (String × List Byte)) (path : String) (data : List Byte) :
    List (String × List Byte) :=
  files.map (fun p => (p.1, if p.1 == path then p.2 ++ data else p.2))

namespace os

/-- Go `os.OpenFile(path, O_WRONLY|O_CREATE|O_TRUNC, 0666)`: unless the call
fails, the file at `path` is created empty, or, when it already exists,
truncated to length zero (the flags do not include `O_EXCL`). -/
def OpenFile (w : World) (path : String) : World × Except OsError File :=
  match w.fault w.clock with
  | some e => (w.step (Event.openFile path (some e)), Except.error e)
  | none =>
    ({ w.step (Event.openFile path none) with
        files := putFile w.files path [],
        openFds := w.nextFd :: w.openFds,
        nextFd := w.nextFd + 1 },
     Except.ok ⟨w.nextFd, path⟩)

/-- Go `os.OpenFile(path, O_CREATE|O_RDWR, 0666)`: creates the file when
absent and keeps existing contents. -/
def OpenFileRW (w : World) (path : String) : World × Except OsError File :=
  match w.fault w.clock with
  | some e => (w.step (Event.openFile path (some e)), Except.error e)
  | none =>
    ({ w.step (Event.openFile path none) with
        files := if w.fileExists path then w.files else putFile w.files path [],
        openFds := w.nextFd :: w.openFds,
        nextFd := w.nextFd + 1 },
     Except.ok ⟨w.nextFd, path⟩)

/-- Go `os.MkdirAll`; directories are not part of the file model, only the
outcome of the call is. -/
def MkdirAll (w : World) (path : String) : World × Option OsError :=
  (w.step (Event.mkdirAll path (w.fault w.clock)), w.fault w.clock)

/-- Go `os.Remove(path)`. -/
def Remove (w : World) (path : String) : World × Option OsError :=
  match w.fault w.clock with
  | some e => (w.step (Event.remove path (some e)), some e)
  | none =>
    if w.fileExists path then
      ({ w.step (Event.remove path none) with files := dropFile w.files path }, none)
    else (w.step (Event.remove path (some OsError.notExist)), some OsError.notExist)

/-- Go `(*os.File).Write`. A nil receiver yields `ErrInvalid` and a closed one
`ErrClosed`. Every write of this program happens at the end of the file:
segment files are opened truncated and never repositioned, and the playlist
file is rewound and truncated before its single write. -/
def File.Write (w : World) (f : Option File) (data : List Byte) : World × Option OsError :=
  match f with
  | none => (w, some OsError.invalid)
  | some f =>
    if f.fd ∈ w.openFds then
      match w.fault w.clock with
      | some e => (w.step (Event.write f.fd data (some e)), some e)
      | none =>
        ({ w.step (Event.write f.fd data none) with files := appendFile w.files f.name data }, none)
    else (w.note (Event.write f.fd data (some OsError.closed)), some OsError.closed)

/-- Go `(*os.File).Close`. -/
def File.Close (w : World) (f : Option File) : World × Option OsError :=
  match f with
  | none => (w, some OsError.invalid)
  | some f =>
    if f.fd ∈ w.openFds then
      match w.fault w.clock with
      | some e => (w.step (Event.close f.fd (some e)), some e)
      | none =>
        ({ w.step (Event.close f.fd none) with openFds := w.openFds.filter (fun d => d != f.fd) },
         none)
    else (w.note (Event.close f.fd (some OsError.closed)), some OsError.closed)

/-- Go `(*os.File).Seek(0, 0)` on a non-nil receiver. -/
def File.Seek0 (w : World) (f : File) : World × Option OsError :=
  if f.fd ∈ w.openFds then
    (w.step (Event.seek f.fd (w.fault w.clock)), w.fault w.clock)
  else (w.note (Event.seek f.fd (some OsError.closed)), some OsError.closed)

/-- Go `(*os.File).Truncate(0)` on a non-nil receiver. -/
def File.Truncate0 (w : World) (f : File) : World × Option OsError :=
  if f.fd ∈ w.openFds then
    match w.fault w.clock with
    | some e => (w.step (Event.truncate f.fd (some e)), some e)
    | none =>
      ({ w.step (Event.truncate f.fd none) with
          files := w.files.map (fun p => (p.1, if p.1 == f.name then [] else p.2)) }, none)
  else (w.note (Event.truncate f.fd (some OsError.closed)), some OsError.closed)

end os

/-! ## External libraries used by the sink -/

namespace libhls

/-- Modelled from the spec: the playlist writer `libhls.M3U8Writer` lives in an
external library. The spec describes it as a bounded ordered list of completed
segments with a maximum length, to which each rotation appends one entry and
from which the oldest entry is dropped when the bound is exceeded. -/
structure M3U8Writer where
  capacity : Int
  playlist : List Segment
deriving DecidableEq, Repr

/-- Modelled from the spec: `libhls.NewM3U8Writer(length)`, an empty playlist
bounded by `length`. -/
def NewM3U8Writer (length : Int) : M3U8Writer := ⟨length, []⟩

/-- Method `Size()`: number of retained segments. -/
def M3U8Writer.Size (m : M3U8Writer) : Int := m.playlist.length

/-- Method `Get(index)`: the retained segment at `index`, oldest first. -/
def M3U8Writer.Get (m : M3U8Writer) (index : Nat) : Option Segment := m.playlist.get? index

/-- Modelled from the spec: method `AddSegment` appends one entry and, if the
playlist is then over its bound, evicts the oldest entry. -/
def M3U8Writer.AddSegment (m : M3U8Writer) (duration : F32) (url : String) (sequence : Int)
    (path : String) : M3U8Writer :=
  if m.capacity < ((m.playlist ++ [Segment.mk duration url sequence path]).length : Int) then
    { m with playlist := (m.playlist ++ [Segment.mk duration url sequence path]).tail }
  else { m with playlist := m.playlist ++ [Segment.mk duration url sequence path] }

end libhls

namespace libmpeg

/-- One write span of the TS muxer: it asks the allocation handler for `size`
bytes, fills the first `data.length` bytes of the returned slice and reports
them to the write handler. -/
structure Span where
  size : Nat
  data : List Byte
deriving DecidableEq, Repr

/-- The methods of the external interface `libmpeg.TSMuxer` that the sink
calls, over an arbitrary muxer state `μ`. Methods that emit container bytes
return the spans they push through the alloc/write handlers. -/
structure TSMuxer (μ : Type) where
  NewTSMuxer : μ
  TrackCount : μ → Int
  Duration : μ → Int
  Reset : μ → μ
  WriteHeader : μ → μ × List Span
  Input : μ → Int → List Byte → Int → Int → Bool → μ × List Span

end libmpeg

namespace utils

/-- Go `utils.AVMediaType`. -/
inductive AVMediaType where
  | audio
  | video
deriving DecidableEq, Repr

/-- The methods of the external interface `utils.AVPacket` that the sink reads.
`AnnexBPacketData` takes the stream of the packet's track. -/
structure AVPacket where
  Index : Int
  MediaType : AVMediaType
  KeyFrame : Bool
  ConvertPts : Int → Int
  ConvertDts : Int → Int
  Data : List Byte
  AnnexBPacketData : Nat → List Byte

end utils

namespace stream

/-- Go `stream.Track` (`stream/track.go`); the `utils.AVStream` is an opaque
identifier. -/
structure Track where
  Stream : Nat
  Pts : Int
  Dts : Int
  FrameDuration : Int
deriving DecidableEq, Repr

/-- Go `stream.NewTrack`: positional construction, so the argument called
`dts` is stored in `Pts` and the one called `pts` in `Dts`. -/
def NewTrack (stream : Nat) (dts pts : Int) : Track := ⟨stream, dts, pts, 0⟩

end stream

/-- What the sink needs from outside `hls_stream.go`: the muxer's methods,
`fmt.Sprintf(format, seq)` for the segment file name, and the rendering
`M3U8Writer.String()` of a playlist. -/
structure Deps (μ : Type) where
  mux : libmpeg.TSMuxer μ
  sprintf : String → Int → String
  m3u8Text : List libhls.Segment → String

namespace hls

/-- Errors returned by the sink. -/
inductive GoError where
  | trackNotAvailable
  | os (e : OsError)
deriving DecidableEq, Repr

/-- Go `tsContext`. -/
structure tsContext where
  segmentSeq : Int
  writeBuffer : List Byte
  writeBufferSize : Nat
  url : String
  path : String
  file : Option os.File
deriving DecidableEq, Repr

/-- Go `TransStream`. `Tracks` and `ExistVideo` are the fields of the embedded
`stream.BaseTransStream` that the sink reads. A nil map is `none`. -/
structure TransStream (μ : Type) where
  Tracks : List stream.Track
  ExistVideo : Bool
  muxer : Option μ
  context : tsContext
  M3U8Writer : libhls.M3U8Writer
  m3u8Name : String
  m3u8File : Option os.File
  dir : String
  tsUrl : String
  tsFormat : String
  duration : Int
  playlistLength : Int
  m3u8Sinks : Option (List SinkID)
  PlaylistFormat : String

/-- Go `[]byte(s)`. -/
def bytesOf (s : String) : List Byte := s.toUTF8.data.toList.map UInt8.toNat

/-- Go `len(t.m3u8Sinks)` and `range t.m3u8Sinks`: a nil map has no entries. -/
def sinkList (m : Option (List SinkID)) : List SinkID := m.getD []

/-- Overwrite `buf` from offset `off` with `data` (the muxer filling the
slice handed out by `onTSAlloc`). -/
def overwrite (buf : List Byte) (off : Nat) (data : List Byte) : List Byte :=
  buf.take off ++ data ++ buf.drop (off + data.length)

variable {μ : Type}

/-- Go `TransStream.onTSWrite`. -/
def TransStream.onTSWrite (t : TransStream μ) (data : List Byte) : TransStream μ :=
  { t with context := { t.context with writeBufferSize := t.context.writeBufferSize + data.length } }

/-- Go `TransStream.onTSAlloc`. The returned slice
`writeBuffer[writeBufferSize : writeBufferSize+size]` is given by its offset. -/
def TransStream.onTSAlloc (t : TransStream μ) (w : World) (size : Nat) :
    Option (TransStream μ × World × Nat) :=
  if ((t.context.writeBuffer.length : Int) - (t.context.writeBufferSize : Int) < (size : Int)) then
    if t.context.writeBufferSize ≤ t.context.writeBuffer.length then
      if size ≤ t.context.writeBuffer.length then
        some ({ t with context := { t.context with writeBufferSize := 0 } },
              (os.File.Write w t.context.file
                (t.context.writeBuffer.take t.context.writeBufferSize)).1, 0)
      else none
    else none
  else some (t, w, t.context.writeBufferSize)

/-- One write span of the muxer run against the two handlers. -/
def TransStream.writeSpan (t : TransStream μ) (w : World) (sp : libmpeg.Span) :
    Option (TransStream μ × World) :=
  match t.onTSAlloc w sp.size with
  | none => none
  | some (t1, w1, off) =>
    if sp.data.length ≤ sp.size then
      some (TransStream.onTSWrite
              { t1 with context :=
                  { t1.context with writeBuffer := overwrite t1.context.writeBuffer off sp.data } }
              sp.data, w1)
    else none

/-- The spans of one muxer call, in order. -/
def TransStream.writeSpans (t : TransStream μ) (w : World) :
    List libmpeg.Span → Option (TransStream μ × World)
  | [] => some (t, w)
  | sp :: rest =>
    match t.writeSpan w sp with
    | none => none
    | some (t1, w1) => TransStream.writeSpans t1 w1 rest

end hls

namespace hls

variable {μ : Type}

/-- Lines 137-146 of `flushSegment`: rewind, truncate and rewrite the playlist
file when one is open; the first failing call is returned. -/
def writeM3U8File (w : World) (m3u8File : Option os.File) (m3u8Txt : String) :
    World × Option OsError :=
  match m3u8File with
  | none => (w, none)
  | some f =>
    match os.File.Seek0 w f with
    | (w1, some e) => (w1, some e)
    | (w1, none) =>
      match os.File.Truncate0 w1 f with
      | (w2, some e) => (w2, some e)
      | (w2, none) => os.File.Write w2 (some f) (bytesOf m3u8Txt)

/-- The loop `for _, sink := range t.m3u8Sinks { sink.SendM3U8Data(t.PlaylistFormat) }`.
Modelled from the spec: `M3U8Sink.SendM3U8Data` is not among the sources; it
delivers the playlist text to the consumer. -/
def sendAll (w : World) (sinks : List SinkID) (text : String) : World :=
  sinks.foldl (fun acc sink => acc.note (Event.sendM3U8Data sink text)) w

/-- The loop `for _, sink := range t.m3u8Sinks { sink.cb(nil) }`. -/
def cbAll (w : World) (sinks : List SinkID) : World :=
  sinks.foldl (fun acc sink => acc.note (Event.cbNil sink)) w

/-- Lines 111-115 of `flushSegment`: write the remaining buffered TS packets.
The slice expression `writeBuffer[:writeBufferSize]` panics beyond the
buffer's capacity. -/
def flushBuffer (t : TransStream μ) (w : World) : Option (TransStream μ × World) :=
  if 0 < t.context.writeBufferSize then
    if t.context.writeBufferSize ≤ t.context.writeBuffer.length then
      some ({ t with context := { t.context with writeBufferSize := 0 } },
            (os.File.Write w t.context.file
              (t.context.writeBuffer.take t.context.writeBufferSize)).1)
    else none
  else some (t, w)

/-- Lines 121-124 of `flushSegment`: delete the file of the oldest playlist
entry when the playlist already holds `playlistLength` entries. -/
def removeSurplus (t : TransStream μ) (w : World) : Option World :=
  if t.playlistLength ≤ t.M3U8Writer.Size then
    match t.M3U8Writer.Get 0 with
    | none => none
    | some seg => some (os.Remove w seg.Path).1
  else some w

/-- The playlist entry that `flushSegment` appends for the current segment. -/
def currentSegment (X : Deps μ) (t : TransStream μ) (m : μ) : libhls.Segment :=
  ⟨F32.div (F32.ofInt (X.mux.Duration m)) (F32.ofInt 90000), t.context.url,
    t.context.segmentSeq, t.context.path⟩

/-- The playlist after `flushSegment` has appended the current segment. -/
def nextWriter (X : Deps μ) (t : TransStream μ) (m : μ) : libhls.M3U8Writer :=
  t.M3U8Writer.AddSegment (F32.div (F32.ofInt (X.mux.Duration m)) (F32.ofInt 90000))
    t.context.url t.context.segmentSeq t.context.path

/-- Lines 126-135 of `flushSegment`: append the current segment to the
playlist and publish the new playlist text. -/
def updatePlaylist (X : Deps μ) (t : TransStream μ) (m : μ) (w : World) :
    TransStream μ × World :=
  ({ t with
      M3U8Writer := nextWriter X t m,
      PlaylistFormat := X.m3u8Text (nextWriter X t m).playlist },
   w.note (Event.addSegment (currentSegment X t m)))

/-- The test of line 150: some sink is waiting and the playlist holds more
than one segment. -/
def releasesSinks (t : TransStream μ) : Bool :=
  decide (0 < (sinkList t.m3u8Sinks).length ∧ 1 < t.M3U8Writer.Size)

/-- Lines 148-156 of `flushSegment`: once the playlist holds more than one
segment, send it to every waiting sink and replace the map by an empty one. -/
def notifySinks (t : TransStream μ) (w : World) : TransStream μ × World :=
  if releasesSinks t then
    ({ t with m3u8Sinks := some [] }, sendAll w (sinkList t.m3u8Sinks) t.PlaylistFormat)
  else (t, w)

/-- Go `TransStream.flushSegment`. -/
def TransStream.flushSegment (X : Deps μ) (t : TransStream μ) (w : World) (_end : Bool) :
    Option (TransStream μ × World × Option GoError) :=
  match flushBuffer t w with
  | none => none
  | some (t1, w1) =>
    match os.File.Close w1 t1.context.file with
    | (w2, some e) => some (t1, w2, some (GoError.os e))
    | (w2, none) =>
      match removeSurplus t1 w2, t1.muxer with
      | none, _ => none
      | some _, none => none
      | some w3, some m =>
        match writeM3U8File (updatePlaylist X t1 m w3).2 t1.m3u8File
            (updatePlaylist X t1 m w3).1.PlaylistFormat with
        | (w5, some e) => some ((updatePlaylist X t1 m w3).1, w5, some (GoError.os e))
        | (w5, none) =>
          some ((notifySinks (updatePlaylist X t1 m w3).1 w5).1,
                (notifySinks (updatePlaylist X t1 m w3).1 w5).2, none)

/-- The retry loop of `createSegment` (lines 167-187), from candidate
`startSeq`; `fuel` bounds the number of attempts. -/
def createSegmentLoop (X : Deps μ) :
    Nat → TransStream μ → World → Int →
      Option (TransStream μ × World × Except OsError (Int × os.File))
  | 0, _, _, _ => none
  | fuel + 1, t, w, startSeq =>
    let tsName := X.sprintf t.tsFormat startSeq
    let t1 := { t with context :=
      { t.context with path := t.dir ++ "/" ++ tsName, url := t.tsUrl ++ tsName } }
    match os.OpenFile w t1.context.path with
    | (w1, Except.ok file) => some (t1, w1, Except.ok (startSeq, file))
    | (w1, Except.error err) =>
      if os.IsPermission err || os.IsTimeout err || os.IsNotExist err then
        some (t1, w1, Except.error err)
      else createSegmentLoop X fuel t1 w1 (startSeq + 1)

/-- Go `TransStream.createSegment`. -/
def TransStream.createSegment (X : Deps μ) (fuel : Nat) (t : TransStream μ) (w : World) :
    Option (TransStream μ × World × Option GoError) :=
  match t.muxer with
  | none => none
  | some m =>
    match createSegmentLoop X fuel { t with muxer := some (X.mux.Reset m) } w
        (t.context.segmentSeq + 1) with
    | none => none
    | some (t1, w1, Except.error err) => some (t1, w1, some (GoError.os err))
    | some (t1, w1, Except.ok (startSeq, tsFile)) =>
      match TransStream.writeSpans
          { t1 with
            context := { t1.context with segmentSeq := startSeq, file := some tsFile },
            muxer := some (X.mux.WriteHeader (X.mux.Reset m)).1 }
          w1 (X.mux.WriteHeader (X.mux.Reset m)).2 with
      | none => none
      | some (t2, w2) => some (t2, w2, none)

/-- Go `TransStream.WriteHeader`. -/
def TransStream.WriteHeader (X : Deps μ) (fuel : Nat) (t : TransStream μ) (w : World) :
    Option (TransStream μ × World × Option GoError) :=
  TransStream.createSegment X fuel t w

/-- The four results of `Input`. -/
structure InputResult where
  chunks : Option (List (List Byte))
  ts : Int
  producedOutput : Bool
  err : Option GoError
deriving DecidableEq, Repr

/-- The rotation test of `Input` (line 50). -/
def rotationDue (X : Deps μ) (t : TransStream μ) (m : μ) (packet : utils.AVPacket) : Bool :=
  (!t.ExistVideo || (utils.AVMediaType.video == packet.MediaType && packet.KeyFrame)) &&
    F32.ge (F32.div (F32.ofInt (X.mux.Duration m)) (F32.ofInt 90000)) (F32.ofInt t.duration)

/-- Lines 50-63 of `Input`: when rotation is due, flush the open segment (if
any) and create the next one. -/
def rotate (X : Deps μ) (fuel : Nat) (t : TransStream μ) (w : World) (m : μ)
    (packet : utils.AVPacket) : Option (TransStream μ × World × Option GoError) :=
  if rotationDue X t m packet then
    match t.context.file with
    | some _ =>
      match TransStream.flushSegment X t w false with
      | none => none
      | some (t1, w1, some err) => some (t1, w1, some err)
      | some (t1, w1, none) => TransStream.createSegment X fuel t1 w1
    | none => TransStream.createSegment X fuel t w
  else some (t, w, none)

/-- Lines 65-71 of `Input`: hand the packet to the muxer. -/
def muxPacket (X : Deps μ) (t : TransStream μ) (w : World) (packet : utils.AVPacket) :
    Option (TransStream μ × World) :=
  match t.muxer with
  | none => none
  | some m =>
    if utils.AVMediaType.video == packet.MediaType then
      if packet.Index < 0 then none
      else
        match t.Tracks.get? packet.Index.toNat with
        | none => none
        | some track =>
          TransStream.writeSpans
            { t with muxer := some (X.mux.Input m packet.Index
                (packet.AnnexBPacketData track.Stream) (packet.ConvertPts 90000)
                (packet.ConvertDts 90000) packet.KeyFrame).1 }
            w (X.mux.Input m packet.Index (packet.AnnexBPacketData track.Stream)
                (packet.ConvertPts 90000) (packet.ConvertDts 90000) packet.KeyFrame).2
    else
      TransStream.writeSpans
        { t with muxer := some (X.mux.Input m packet.Index packet.Data
            (packet.ConvertPts 90000) (packet.ConvertDts 90000) packet.KeyFrame).1 }
        w (X.mux.Input m packet.Index packet.Data (packet.ConvertPts 90000)
            (packet.ConvertDts 90000) packet.KeyFrame).2

/-- Go `TransStream.Input`. -/
def TransStream.Input (X : Deps μ) (fuel : Nat) (t : TransStream μ) (w : World)
    (packet : utils.AVPacket) : Option (TransStream μ × World × InputResult) :=
  match t.muxer with
  | none => none
  | some m =>
    if X.mux.TrackCount m ≤ packet.Index then
      some (t, w, ⟨none, -1, false, some GoError.trackNotAvailable⟩)
    else
      match rotate X fuel t w m packet with
      | none => none
      | some (t1, w1, some err) => some (t1, w1, ⟨none, -1, false, some err⟩)
      | some (t1, w1, none) =>
        match muxPacket X t1 w1 packet with
        | none => none
        | some (t2, w2) => some (t2, w2, ⟨none, -1, true, none⟩)

/-- The three results of `Close`. -/
structure CloseResult where
  chunks : Option (List (List Byte))
  ts : Int
  err : Option GoError
deriving DecidableEq, Repr

/-- Go `TransStream.Close`. -/
def TransStream.Close (X : Deps μ) (t : TransStream μ) (w : World) :
    Option (TransStream μ × World × CloseResult) :=
  let closedSegment : Option (TransStream μ × World × Option GoError) :=
    match t.context.file with
    | some _ =>
      match TransStream.flushSegment X t w true with
      | none => none
      | some (t1, w1, _) =>
        some ({ t1 with context := { t1.context with file := none } },
              (os.File.Close w1 t1.context.file).1,
              (os.File.Close w1 t1.context.file).2.map GoError.os)
    | none => some (t, w, none)
  match closedSegment with
  | none => none
  | some (t1, w1, err1) =>
    let t2 := { t1 with muxer := none }
    let closedM3U8 : World × Option GoError :=
      match t2.m3u8File with
      | some f => ((os.File.Close w1 (some f)).1, (os.File.Close w1 (some f)).2.map GoError.os)
      | none => (w1, err1)
    some ({ t2 with m3u8File := none, m3u8Sinks := none },
          cbAll closedM3U8.1 (sinkList t2.m3u8Sinks), ⟨none, 0, closedM3U8.2⟩)

/-- Go `NewTransStream`. Failure to create the directory is returned; failure
to open the playlist file is only logged and leaves `m3u8File` nil. -/
def NewTransStream (X : Deps μ) (w : World) (dir m3u8Name tsFormat tsUrl : String)
    (segmentDuration playlistLength seq : Int) (playlistFormat : Option String)
    (writer : Option libhls.M3U8Writer) : World × Except OsError (TransStream μ) :=
  match os.MkdirAll w dir with
  | (w1, some err) => (w1, Except.error err)
  | (w1, none) =>
    ((os.OpenFileRW w1 (dir ++ "/" ++ m3u8Name)).1,
     Except.ok
      { Tracks := []
        ExistVideo := false
        muxer := some X.mux.NewTSMuxer
        context :=
          { segmentSeq := seq
            writeBuffer := List.replicate (1024 * 1024) 0
            writeBufferSize := 0
            url := ""
            path := ""
            file := none }
        M3U8Writer := writer.getD (libhls.NewM3U8Writer playlistLength)
        m3u8Name := m3u8Name
        m3u8File := (os.OpenFileRW w1 (dir ++ "/" ++ m3u8Name)).2.toOption
        dir := dir
        tsUrl := tsUrl
        tsFormat := tsFormat
        duration := segmentDuration
        playlistLength := playlistLength
        m3u8Sinks := some []
        PlaylistFormat := playlistFormat.getD "" })

end hls

/-! ## The UDP ingest adapter -/

namespace rtp

/-- The fields of the external `rtp.Packet` that the adapter touches. The
byte slice `Raw` is given by the bytes visible through it and by the pool
block it points into (`none` while it still points into the network read
buffer). -/
structure Packet where
  SequenceNumber : Nat
  Raw : List Byte
  RawBlock : Option Nat
deriving DecidableEq, Repr

end rtp

namespace stream

/-- Modelled from the spec: `stream.ReceiveBuffer` is not among the sources.
The spec describes it as a bounded pool of reusable memory blocks of one fixed
size, recycled and never freed; `blocks` are the pool's blocks and `index` the
block handed out next. -/
structure ReceiveBuffer where
  blockCapacity : Nat
  blocks : List (List Byte)
  index : Nat
deriving DecidableEq, Repr

/-- Modelled from the spec: `stream.NewReceiveBuffer(blockCapacity, blockCount)`. -/
def NewReceiveBuffer (blockCapacity blockCount : Nat) : ReceiveBuffer :=
  ⟨blockCapacity, List.replicate blockCount (List.replicate blockCapacity 0), 0⟩

/-- Modelled from the spec: `GetBlock()` returns a buffer of the pool's fixed
block size; the result is the number of the block handed out. -/
def ReceiveBuffer.GetBlock (r : ReceiveBuffer) : ReceiveBuffer × Nat :=
  ({ r with index := (r.index + 1) % r.blocks.length }, r.index)

/-- Modelled from the spec: `stream.JitterBuffer` is not among the sources;
only the calls `Push(seq, packet)` made on it are recorded, oldest first. -/
structure JitterBuffer where
  pushed : List (Nat × rtp.Packet)
deriving DecidableEq, Repr

/-- Modelled from the spec: `stream.NewJitterBuffer()`. -/
def NewJitterBuffer : JitterBuffer := ⟨[]⟩

/-- Method `Push(seq, packet)`. -/
def JitterBuffer.Push (j : JitterBuffer) (seq : Nat) (packet : rtp.Packet) : JitterBuffer :=
  ⟨j.pushed ++ [(seq, packet)]⟩

end stream

namespace gb28181

/-- Go `UDPSource`, without the embedded `BaseGBSource`. -/
structure UDPSource where
  jitterBuffer : stream.JitterBuffer
  receiveBuffer : stream.ReceiveBuffer
deriving DecidableEq, Repr

/-- Go `copy(dst, src)`: overwrites the first `min (len dst) (len src)`
elements of `dst`. -/
def copy (dst src : List Byte) : List Byte :=
  src.take (min dst.length src.length) ++ dst.drop (min dst.length src.length)

/-- Go `UDPSource.InputRtpPacket`. The slice expression `block[:len(pkt.Raw)]`
panics when `len(pkt.Raw)` exceeds the capacity of `block`. The result is the
updated source and the returned error (always nil). -/
def UDPSource.InputRtpPacket (u : UDPSource) (pkt : rtp.Packet) :
    Option (UDPSource × Option OsError) :=
  match u.receiveBuffer.blocks.get? u.receiveBuffer.GetBlock.2 with
  | none => none
  | some block =>
    if pkt.Raw.length ≤ (copy block pkt.Raw).length then
      some ({ jitterBuffer := u.jitterBuffer.Push pkt.SequenceNumber
                { pkt with Raw := (copy block pkt.Raw).take pkt.Raw.length,
                           RawBlock := some u.receiveBuffer.GetBlock.2 },
              receiveBuffer :=
                { u.receiveBuffer.GetBlock.1 with
                  blocks := u.receiveBuffer.blocks.set u.receiveBuffer.GetBlock.2
                    (copy block pkt.Raw) } },
            none)
    else none

/-- Go `NewUDPSource`; `udpBlockCount` is the constant
`stream.ReceiveBufferUdpBlockCount`, which is not among the sources. -/
def NewUDPSource (udpBlockCount : Nat) : UDPSource :=
  { receiveBuffer := stream.NewReceiveBuffer 1500 (udpBlockCount + 50),
    jitterBuffer := stream.NewJitterBuffer }

end gb28181

/-! ### Observations on the trace -/

/-- The playlist deliveries (`SendM3U8Data`) of a trace, oldest first. -/
def Event.sent : Event → Option (SinkID × String)
  | Event.sendM3U8Data s txt => some (s, txt)
  | _ => none

/-- The empty notifications (`cb(nil)`) of a trace. -/
def Event.nilNotified : Event → Option SinkID
  | Event.cbNil s => some s
  | _ => none

/-- The playlist appends (`AddSegment`) of a trace. -/
def Event.appended : Event → Option libhls.Segment
  | Event.addSegment seg => some seg
  | _ => none

/-- The attempts to create a file of a trace, with their outcome. -/
def Event.opened : Event → Option (String × Option OsError)
  | Event.openFile path err => some (path, err)
  | _ => none

/-- The `os.Remove` calls of a trace. -/
def Event.removed : Event → Option String
  | Event.remove path _ => some path
  | _ => none

/-- Calls on an open file handle: write, close, seek, truncate. -/
def Event.isHandleOp : Event → Bool
  | Event.write _ _ _ => true
  | Event.close _ _ => true
  | Event.seek _ _ => true
  | Event.truncate _ _ => true
  | _ => false

/-- `w1` continues the trace of `w` with calls on file handles only, and
leaves the failure oracle and the descriptor counter as they are. -/
def World.HandleOps (w w1 : World) : Prop :=
  w1.fault = w.fault ∧ w1.nextFd = w.nextFd ∧
    ∃ es, w1.trace = w.trace ++ es ∧ ∀ e ∈ es, e.isHandleOp = true


/-- The consumers notified in a trace, with a playlist or with nil. -/
def Event.notified : Event → Option SinkID
  | Event.sendM3U8Data s _ => some s
  | Event.cbNil s => some s
  | _ => none

namespace hls

variable {μ : Type}

/-- `t1` differs from `t` at most in the write buffer and its fill level. -/
def TransStream.BufferOnly (t t1 : TransStream μ) : Prop :=
  t1 = { t with context :=
    { t.context with writeBuffer := t1.context.writeBuffer,
                     writeBufferSize := t1.context.writeBufferSize } }

/-- A span that respects the handler protocol for a buffer of `cap` bytes. -/
def Fits (cap : Nat) (sp : libmpeg.Span) : Prop :=
  sp.size ≤ cap ∧ sp.data.length ≤ sp.size

/-- The bytes buffered but not yet written: `writeBuffer[:writeBufferSize]`. -/
def TransStream.buffered (t : TransStream μ) : List Byte :=
  t.context.writeBuffer.take t.context.writeBufferSize

end hls

namespace os

/-- The errors on which `createSegment` gives up (line 181). -/
def nonRetryable (e : OsError) : Bool := IsPermission e || IsTimeout e || IsNotExist e

end os

namespace hls

variable {μ : Type}

/-- Path of the segment file with sequence number `seq` (lines 168-170). -/
def segPath (X : Deps μ) (t : TransStream μ) (seq : Int) : String :=
  t.dir ++ "/" ++ X.sprintf t.tsFormat seq

/-- Playlist URL of the segment with sequence number `seq` (line 172). -/
def segUrl (X : Deps μ) (t : TransStream μ) (seq : Int) : String :=
  t.tsUrl ++ X.sprintf t.tsFormat seq

/-- The first `n` creation attempts from candidate `s` in world `w`: the
candidate paths in increasing order of sequence number, each with the outcome
the oracle assigns to that call. -/
def attempts (X : Deps μ) (t : TransStream μ) (w : World) (s : Int) (n : Nat) :
    List (String × Option OsError) :=
  (List.range n).map (fun (j : Nat) => (segPath X t (s + (j : Int)), w.fault (w.clock + j)))

/-- The world after `n` failed creation attempts from candidate `s`. -/
def afterAttempts (X : Deps μ) (t : TransStream μ) (w : World) (s : Int) (n : Nat) : World :=
  { w with
    clock := w.clock + n,
    trace := w.trace ++ (attempts X t w s n).map (fun a => Event.openFile a.1 a.2) }

end hls

namespace hls

/-- The muxer's output: the reported bytes of all spans, in order. -/
def spanBytes (spans : List libmpeg.Span) : List Byte :=
  (spans.map (fun sp => sp.data)).flatten

end hls

instance (cap : Nat) (sp : libmpeg.Span) : Decidable (hls.Fits cap sp) := by
  unfold hls.Fits
  infer_instance

/-! ## A small concrete instance -/

namespace demo

/-- A toy muxer whose state is the accumulated duration in 90 kHz ticks: it
has one track, emits a two-byte header, and turns every packet into one span
holding the packet bytes while one second of duration accrues. -/
def mux : libmpeg.TSMuxer Nat :=
  { NewTSMuxer := 0
    TrackCount := fun _ => 1
    Duration := fun m => m
    Reset := fun _ => 0
    WriteHeader := fun m => (m, [⟨2, [71, 64]⟩])
    Input := fun m _ data _ _ _ => (m + 90000, [⟨data.length, data⟩]) }

/-- The toy muxer with segment names `<seq>.ts` and a playlist text that
lists the segment URLs. -/
def X : Deps Nat :=
  { mux := mux
    sprintf := fun _ n => toString n ++ ".ts"
    m3u8Text := fun segs => String.join (segs.map (fun s => s.Url ++ ";")) }

/-- A sink as `NewTransStream` leaves it (sequence 0, eight-byte buffer,
one-second segments, at most two playlist entries), with `m` ticks muxed. -/
def sink (m : Nat) : hls.TransStream Nat :=
  { Tracks := [⟨0, 0, 0, 0⟩]
    ExistVideo := false
    muxer := some m
    context :=
      { segmentSeq := 0, writeBuffer := [0, 0, 0, 0, 0, 0, 0, 0], writeBufferSize := 0,
        url := "", path := "", file := none }
    M3U8Writer := libhls.NewM3U8Writer 2
    m3u8Name := "live.m3u8"
    m3u8File := none
    dir := "d"
    tsUrl := ""
    tsFormat := "%d.ts"
    duration := 1
    playlistLength := 2
    m3u8Sinks := some []
    PlaylistFormat := "" }

/-- A world without failures in which the files `files` exist. -/
def world (files : List (String × List Byte)) : World :=
  { files := files, openFds := [], nextFd := 3, clock := 0, fault := fun _ => none, trace := [] }

/-- An audio packet on track `index` carrying the bytes `data`. -/
def audio (index : Int) (data : List Byte) : utils.AVPacket :=
  { Index := index, MediaType := utils.AVMediaType.audio, KeyFrame := false,
    ConvertPts := fun _ => 0, ConvertDts := fun _ => 0, Data := data,
    AnnexBPacketData := fun _ => data }

end demo

namespace demo

/-- The toy sink while segment 1 is being written to the open file `d/1.ts`,
with `m` ticks muxed, the consumers `sinks` waiting and `playlist` retained. -/
def live (m : Nat) (sinks : List SinkID) (playlist : List libhls.Segment) : hls.TransStream Nat :=
  { sink m with
    context :=
      { segmentSeq := 1, writeBuffer := [0, 0, 0, 0, 0, 0, 0, 0], writeBufferSize := 0,
        url := "1.ts", path := "d/1.ts", file := some ⟨3, "d/1.ts"⟩ }
    M3U8Writer := ⟨2, playlist⟩
    m3u8Sinks := some sinks }

/-- The world that goes with `live`: the file `d/1.ts` with contents `c` is
open under descriptor 3 and the `clock`-th call fails as `fault` says. -/
def liveWorld (c : List Byte) (fault : Nat → Option OsError) : World :=
  { files := [("d/1.ts", c)], openFds := [3], nextFd := 4, clock := 0, fault := fault,
    trace := [] }

/-- The playlist entry of segment 0. -/
def seg0 : libhls.Segment := ⟨F32.ofInt 1, "0.ts", 0, "d/0.ts"⟩

end demo

/-! ## Theorems -/

namespace gb28181

theorem copy_length (dst src : List Byte) : (copy dst src).length = dst.length := by
  unfold copy
  simp only [List.length_append, List.length_take, List.length_drop]
  omega

theorem copy_take (dst src : List Byte) (h : src.length ≤ dst.length) :
    (copy dst src).take src.length = src := by
  unfold copy
  rw [Nat.min_eq_right h, List.take_of_length_le (Nat.le_refl _)]
  simp

theorem InputRtpPacket_oversize (u : UDPSource) (pkt : rtp.Packet) (block : List Byte)
    (hblock : u.receiveBuffer.blocks.get? u.receiveBuffer.index = some block)
    (hlen : block.length < pkt.Raw.length) :
    UDPSource.InputRtpPacket u pkt = none := by
  simp only [UDPSource.InputRtpPacket, stream.ReceiveBuffer.GetBlock, hblock, copy_length]
  rw [if_neg (by omega)]

/-- C8 as stated fails for a payload longer than a pool block: a 1501-byte
packet makes the slice expression `block[:len(pkt.Raw)]` exceed the 1500-byte
block, so `InputRtpPacket` panics and pushes nothing. -/
theorem C8_counterexample :
    UDPSource.InputRtpPacket (NewUDPSource 300) ⟨7, List.replicate 1501 1, none⟩ = none := by
  apply InputRtpPacket_oversize _ _ (List.replicate 1500 0)
  · show (List.replicate (300 + 50) (List.replicate 1500 0)).get? 0 = some _
    rw [List.get?_eq_getElem?, List.getElem?_replicate, if_pos (by decide)]
  · simp only [List.length_replicate]
    decide

/-- C8, amended. For every received RTP packet whose payload is no longer than
the pool block handed out, `InputRtpPacket` returns no error and pushes, keyed
by the packet's own sequence number, a packet whose payload view points into
the checked-out block and has the same length and the same bytes as the
received payload. -/
theorem C8_InputRtpPacket_copies_payload (u : UDPSource) (pkt : rtp.Packet) (block : List Byte)
    (hblock : u.receiveBuffer.blocks.get? u.receiveBuffer.index = some block)
    (hlen : pkt.Raw.length ≤ block.length) :
    ∃ u1 : UDPSource, ∃ pushedPkt : rtp.Packet, ∃ filled : List Byte,
      UDPSource.InputRtpPacket u pkt = some (u1, none) ∧
      u1.jitterBuffer.pushed = u.jitterBuffer.pushed ++ [(pkt.SequenceNumber, pushedPkt)] ∧
      pushedPkt.SequenceNumber = pkt.SequenceNumber ∧
      pushedPkt.RawBlock = some u.receiveBuffer.index ∧
      u1.receiveBuffer.blocks.get? u.receiveBuffer.index = some filled ∧
      pushedPkt.Raw = filled.take pkt.Raw.length ∧
      pushedPkt.Raw.length = pkt.Raw.length ∧
      pushedPkt.Raw = pkt.Raw := by
  have hidx : u.receiveBuffer.index < u.receiveBuffer.blocks.length := by
    rcases List.get?_eq_some.mp hblock with ⟨h, _⟩
    exact h
  refine ⟨{ jitterBuffer := u.jitterBuffer.Push pkt.SequenceNumber
              { pkt with Raw := (copy block pkt.Raw).take pkt.Raw.length,
                         RawBlock := some u.receiveBuffer.index },
            receiveBuffer :=
              { u.receiveBuffer.GetBlock.1 with
                blocks := u.receiveBuffer.blocks.set u.receiveBuffer.index
                  (copy block pkt.Raw) } },
          { pkt with Raw := (copy block pkt.Raw).take pkt.Raw.length,
                     RawBlock := some u.receiveBuffer.index },
          copy block pkt.Raw, ?_, rfl, rfl, rfl, ?_, rfl, ?_, ?_⟩
  · simp only [UDPSource.InputRtpPacket, stream.ReceiveBuffer.GetBlock, hblock, copy_length]
    rw [if_pos hlen]
  · simp [hidx]
  · simp [copy_take _ _ hlen]
  · exact copy_take _ _ hlen

/-- C8, amended, at a concrete input: a two-byte payload and three-byte blocks. -/
theorem C8_InputRtpPacket_copies_payload_witness :
    ∃ u1 : UDPSource, ∃ pushedPkt : rtp.Packet, ∃ filled : List Byte,
      UDPSource.InputRtpPacket ⟨⟨[]⟩, ⟨3, [[0, 0, 0], [0, 0, 0]], 1⟩⟩ ⟨9, [5, 6], none⟩
        = some (u1, none) ∧
      u1.jitterBuffer.pushed = [] ++ [(9, pushedPkt)] ∧
      pushedPkt.SequenceNumber = 9 ∧
      pushedPkt.RawBlock = some 1 ∧
      u1.receiveBuffer.blocks.get? 1 = some filled ∧
      pushedPkt.Raw = filled.take 2 ∧
      pushedPkt.Raw.length = 2 ∧
      pushedPkt.Raw = [5, 6] :=
  C8_InputRtpPacket_copies_payload ⟨⟨[]⟩, ⟨3, [[0, 0, 0], [0, 0, 0]], 1⟩⟩ ⟨9, [5, 6], none⟩ [0, 0, 0] (by rfl)
    (by decide)

end gb28181

namespace hls

variable {μ : Type}

theorem Close_released (X : Deps μ) (t t1 : TransStream μ) (w w1 : World) (r : CloseResult)
    (h : TransStream.Close X t w = some (t1, w1, r)) :
    t1.context.file = none ∧ t1.muxer = none ∧ t1.m3u8File = none ∧ t1.m3u8Sinks = none := by
  unfold TransStream.Close at h
  cases hf : t.context.file with
  | none =>
    simp only [hf] at h
    injection h with h
    injection h with h1 h2
    subst h1
    exact ⟨hf, rfl, rfl, rfl⟩
  | some f =>
    simp only [hf] at h
    cases hfl : TransStream.flushSegment X t w true with
    | none => simp [hfl] at h
    | some res =>
      obtain ⟨t0, w0, e0⟩ := res
      simp only [hfl] at h
      injection h with h
      injection h with h1 h2
      subst h1
      exact ⟨rfl, rfl, rfl, rfl⟩

theorem Close_of_released (X : Deps μ) (t : TransStream μ) (w : World)
    (hf : t.context.file = none) (hm : t.muxer = none) (h3 : t.m3u8File = none)
    (hs : t.m3u8Sinks = none) :
    TransStream.Close X t w = some (t, w, ⟨none, 0, none⟩) := by
  obtain ⟨tr, ev, mux, ctx, wr, nm, mf, dir, url, fmt, dur, pl, sinks, pf⟩ := t
  obtain ⟨seq, buf, sz, u, p, f⟩ := ctx
  simp only at hf hm h3 hs
  subst hf hm h3 hs
  rfl

/-- C9. `Close` is idempotent-safe: once a first `Close` has returned, a
second `Close` returns no error, leaves the sink state and the outside world
(files, open descriptors, trace of writes, closes, playlist updates and
consumer notifications) exactly as the first one left them, with the segment
file, the muxer, the playlist file handle and the pending set all released. -/
theorem C9_Close_idempotent (X : Deps μ) (t t1 : TransStream μ) (w w1 : World)
    (r : CloseResult) (h : TransStream.Close X t w = some (t1, w1, r)) :
    TransStream.Close X t1 w1 = some (t1, w1, ⟨none, 0, none⟩) ∧
      t1.context.file = none ∧ t1.muxer = none ∧ t1.m3u8File = none ∧
      t1.m3u8Sinks = none := by
  have hr := Close_released X t t1 w w1 r h
  exact ⟨Close_of_released X t1 w1 hr.1 hr.2.1 hr.2.2.1 hr.2.2.2, hr⟩

end hls

theorem World.HandleOps.stay (w : World) : w.HandleOps w :=
  ⟨rfl, rfl, [], by simp, by simp⟩

theorem World.HandleOps.followedBy {w w1 w2 : World} (h1 : w.HandleOps w1) (h2 : w1.HandleOps w2) :
    w.HandleOps w2 := by
  obtain ⟨a1, b1, es1, c1, d1⟩ := h1
  obtain ⟨a2, b2, es2, c2, d2⟩ := h2
  refine ⟨a2.trans a1, b2.trans b1, es1 ++ es2, ?_, ?_⟩
  · rw [c2, c1, List.append_assoc]
  · intro e he
    rcases List.mem_append.mp he with h | h
    · exact d1 e h
    · exact d2 e h

theorem filterMap_handleOps {α : Type} (f : Event → Option α)
    (hf : ∀ e, e.isHandleOp = true → f e = none) (es : List Event)
    (h : ∀ e ∈ es, e.isHandleOp = true) : es.filterMap f = [] := by
  induction es with
  | nil => rfl
  | cons e rest ih =>
    rw [List.filterMap_cons, hf e (h e (List.mem_cons_self _ _))]
    exact ih (fun x hx => h x (List.mem_cons_of_mem _ hx))

theorem sent_handleOp (e : Event) (h : e.isHandleOp = true) : e.sent = none := by
  cases e <;> simp_all [Event.isHandleOp, Event.sent]

theorem nilNotified_handleOp (e : Event) (h : e.isHandleOp = true) : e.nilNotified = none := by
  cases e <;> simp_all [Event.isHandleOp, Event.nilNotified]

theorem appended_handleOp (e : Event) (h : e.isHandleOp = true) : e.appended = none := by
  cases e <;> simp_all [Event.isHandleOp, Event.appended]

theorem opened_handleOp (e : Event) (h : e.isHandleOp = true) : e.opened = none := by
  cases e <;> simp_all [Event.isHandleOp, Event.opened]

theorem removed_handleOp (e : Event) (h : e.isHandleOp = true) : e.removed = none := by
  cases e <;> simp_all [Event.isHandleOp, Event.removed]

namespace os

theorem File.Write_handleOps (w : World) (f : Option File) (data : List Byte) :
    w.HandleOps (File.Write w f data).1 := by
  unfold File.Write
  cases f with
  | none => exact World.HandleOps.stay w
  | some f =>
    simp only
    split
    · split
      · exact ⟨rfl, rfl, [_], rfl, by simp [Event.isHandleOp]⟩
      · exact ⟨rfl, rfl, [_], rfl, by simp [Event.isHandleOp]⟩
    · exact ⟨rfl, rfl, [_], rfl, by simp [Event.isHandleOp]⟩

theorem File.Write_openFds (w : World) (f : Option File) (data : List Byte) :
    (File.Write w f data).1.openFds = w.openFds := by
  unfold File.Write
  cases f with
  | none => rfl
  | some f =>
    simp only
    split
    · split <;> rfl
    · rfl

theorem File.Close_handleOps (w : World) (f : Option File) :
    w.HandleOps (File.Close w f).1 := by
  unfold File.Close
  cases f with
  | none => exact World.HandleOps.stay w
  | some f =>
    simp only
    split
    · split
      · exact ⟨rfl, rfl, [_], rfl, by simp [Event.isHandleOp]⟩
      · exact ⟨rfl, rfl, [_], rfl, by simp [Event.isHandleOp]⟩
    · exact ⟨rfl, rfl, [_], rfl, by simp [Event.isHandleOp]⟩

theorem File.Seek0_handleOps (w : World) (f : File) : w.HandleOps (File.Seek0 w f).1 := by
  unfold File.Seek0
  split
  · exact ⟨rfl, rfl, [_], rfl, by simp [Event.isHandleOp]⟩
  · exact ⟨rfl, rfl, [_], rfl, by simp [Event.isHandleOp]⟩

theorem File.Seek0_openFds (w : World) (f : File) : (File.Seek0 w f).1.openFds = w.openFds := by
  unfold File.Seek0
  split <;> rfl

theorem File.Truncate0_handleOps (w : World) (f : File) :
    w.HandleOps (File.Truncate0 w f).1 := by
  unfold File.Truncate0
  split
  · split
    · exact ⟨rfl, rfl, [_], rfl, by simp [Event.isHandleOp]⟩
    · exact ⟨rfl, rfl, [_], rfl, by simp [Event.isHandleOp]⟩
  · exact ⟨rfl, rfl, [_], rfl, by simp [Event.isHandleOp]⟩

theorem File.Truncate0_openFds (w : World) (f : File) :
    (File.Truncate0 w f).1.openFds = w.openFds := by
  unfold File.Truncate0
  split
  · split <;> rfl
  · rfl

theorem File.Close_ok (w : World) (f : File) (hopen : f.fd ∈ w.openFds)
    (hfault : w.fault w.clock = none) : (File.Close w (some f)).2 = none := by
  simp [File.Close, hopen, hfault]

theorem File.Close_openFds (w : World) (f : File) (d : Nat) (hd : d ∈ w.openFds)
    (hne : d ≠ f.fd) : d ∈ (File.Close w (some f)).1.openFds := by
  unfold File.Close
  simp only
  split
  · split
    · exact hd
    · simp [List.mem_filter, hd, hne]
  · exact hd

theorem Remove_fault (w : World) (path : String) : (Remove w path).1.fault = w.fault := by
  unfold Remove
  split
  · rfl
  · split <;> rfl

theorem Remove_openFds (w : World) (path : String) : (Remove w path).1.openFds = w.openFds := by
  unfold Remove
  split
  · rfl
  · split <;> rfl

theorem Remove_nextFd (w : World) (path : String) : (Remove w path).1.nextFd = w.nextFd := by
  unfold Remove
  split
  · rfl
  · split <;> rfl

theorem Remove_trace (w : World) (path : String) :
    ∃ err, (Remove w path).1.trace = w.trace ++ [Event.remove path err] := by
  unfold Remove
  split
  · exact ⟨_, rfl⟩
  · split
    · exact ⟨_, rfl⟩
    · exact ⟨_, rfl⟩

end os

namespace hls

variable {μ : Type}

theorem sendAll_eq (w : World) (sinks : List SinkID) (text : String) :
    sendAll w sinks text =
      { w with trace := w.trace ++ sinks.map (fun s => Event.sendM3U8Data s text) } := by
  unfold sendAll
  induction sinks generalizing w with
  | nil => simp
  | cons s rest ih => rw [List.foldl_cons, ih]; simp [World.note]

theorem cbAll_eq (w : World) (sinks : List SinkID) :
    cbAll w sinks = { w with trace := w.trace ++ sinks.map (fun s => Event.cbNil s) } := by
  unfold cbAll
  induction sinks generalizing w with
  | nil => simp
  | cons s rest ih => rw [List.foldl_cons, ih]; simp [World.note]

theorem zero_wbs_eq (t : TransStream μ) (h : ¬ 0 < t.context.writeBufferSize) :
    t = { t with context := { t.context with writeBufferSize := 0 } } := by
  obtain ⟨tr, ev, mux, ctx, wr, nm, mf, dir, url, fmt, dur, pl, sinks, pf⟩ := t
  obtain ⟨seq, buf, sz, u, p, f⟩ := ctx
  simp only at h
  have : sz = 0 := by omega
  subst this
  rfl

theorem flushBuffer_spec (t ta : TransStream μ) (w wa : World)
    (h : flushBuffer t w = some (ta, wa)) :
    ta = { t with context := { t.context with writeBufferSize := 0 } } ∧
      w.HandleOps wa ∧ wa.openFds = w.openFds ∧ wa.clock ≤ w.clock + 1 ∧ w.clock ≤ wa.clock := by
  unfold flushBuffer at h
  split at h
  · split at h
    · injection h with h
      injection h with h1 h2
      subst h1 h2
      refine ⟨rfl, os.File.Write_handleOps _ _ _, os.File.Write_openFds _ _ _, ?_, ?_⟩
      · unfold os.File.Write
        cases t.context.file with
        | none => simp
        | some f =>
          simp only
          split
          · split <;> simp [World.step]
          · simp [World.note]
      · unfold os.File.Write
        cases t.context.file with
        | none => simp
        | some f =>
          simp only
          split
          · split <;> simp [World.step]
          · simp [World.note]
    · exact absurd h (by simp)
  · rename_i hz
    injection h with h
    injection h with h1 h2
    subst h1 h2
    exact ⟨zero_wbs_eq t hz, World.HandleOps.stay w, rfl, by omega, by omega⟩

theorem flushBuffer_some (t : TransStream μ) (w : World)
    (h : t.context.writeBufferSize ≤ t.context.writeBuffer.length) :
    ∃ ta wa, flushBuffer t w = some (ta, wa) := by
  unfold flushBuffer
  by_cases hz : 0 < t.context.writeBufferSize
  · rw [if_pos hz, if_pos h]; exact ⟨_, _, rfl⟩
  · rw [if_neg hz]; exact ⟨_, _, rfl⟩

/-- Every way in which `flushSegment` returns. -/
theorem flushSegment_inv (X : Deps μ) (t t1 : TransStream μ) (w w1 : World) (e : Bool)
    (r : Option GoError) (h : TransStream.flushSegment X t w e = some (t1, w1, r)) :
    ∃ ta wa, flushBuffer t w = some (ta, wa) ∧
      ((∃ err, os.File.Close wa ta.context.file = (w1, some err) ∧ t1 = ta ∧
          r = some (GoError.os err)) ∨
       (∃ wb wc m, os.File.Close wa ta.context.file = (wb, none) ∧
          removeSurplus ta wb = some wc ∧ ta.muxer = some m ∧
          ((∃ err, writeM3U8File (updatePlaylist X ta m wc).2 ta.m3u8File
                (updatePlaylist X ta m wc).1.PlaylistFormat = (w1, some err) ∧
              t1 = (updatePlaylist X ta m wc).1 ∧ r = some (GoError.os err)) ∨
           (∃ wd, writeM3U8File (updatePlaylist X ta m wc).2 ta.m3u8File
                (updatePlaylist X ta m wc).1.PlaylistFormat = (wd, none) ∧
              t1 = (notifySinks (updatePlaylist X ta m wc).1 wd).1 ∧
              w1 = (notifySinks (updatePlaylist X ta m wc).1 wd).2 ∧ r = none)))) := by
  unfold TransStream.flushSegment at h
  cases hfb : flushBuffer t w with
  | none => simp [hfb] at h
  | some p =>
    obtain ⟨ta, wa⟩ := p
    refine ⟨ta, wa, rfl, ?_⟩
    simp only [hfb] at h
    cases hc : os.File.Close wa ta.context.file with
    | mk wb cerr =>
      simp only [hc] at h
      cases cerr with
      | some err =>
        simp only [Option.some.injEq, Prod.mk.injEq] at h
        obtain ⟨h1, h2, h3⟩ := h
        subst h1 h2 h3
        exact Or.inl ⟨err, rfl, rfl, rfl⟩
      | none =>
        simp only at h
        right
        cases hr : removeSurplus ta wb with
        | none => simp [hr] at h
        | some wc =>
          cases hm : ta.muxer with
          | none => simp [hr, hm] at h
          | some m =>
            simp only [hr, hm] at h
            refine ⟨wb, wc, m, rfl, hr, rfl, ?_⟩
            cases hw : writeM3U8File (updatePlaylist X ta m wc).2 ta.m3u8File
                (updatePlaylist X ta m wc).1.PlaylistFormat with
            | mk wd werr =>
              simp only [hw] at h
              cases werr with
              | some err =>
                simp only [Option.some.injEq, Prod.mk.injEq] at h
                obtain ⟨h1, h2, h3⟩ := h
                subst h1 h2 h3
                exact Or.inl ⟨err, rfl, rfl, rfl⟩
              | none =>
                simp only [Option.some.injEq, Prod.mk.injEq] at h
                obtain ⟨h1, h2, h3⟩ := h
                subst h1 h2 h3
                exact Or.inr ⟨wd, rfl, rfl, rfl, rfl⟩

end hls

namespace hls

variable {μ : Type}

theorem removeSurplus_spec (t : TransStream μ) (w wc : World)
    (h : removeSurplus t w = some wc) :
    wc.fault = w.fault ∧ wc.openFds = w.openFds ∧ wc.nextFd = w.nextFd ∧
      ((t.playlistLength ≤ t.M3U8Writer.Size ∧ ∃ seg err, t.M3U8Writer.Get 0 = some seg ∧
          wc = (os.Remove w seg.Path).1 ∧ wc.trace = w.trace ++ [Event.remove seg.Path err]) ∨
       (¬ t.playlistLength ≤ t.M3U8Writer.Size ∧ wc = w)) := by
  unfold removeSurplus at h
  split at h
  · rename_i hle
    cases hg : t.M3U8Writer.Get 0 with
    | none => simp [hg] at h
    | some seg =>
      simp only [hg, Option.some.injEq] at h
      subst h
      obtain ⟨err, herr⟩ := os.Remove_trace w seg.Path
      exact ⟨os.Remove_fault _ _, os.Remove_openFds _ _, os.Remove_nextFd _ _,
        Or.inl ⟨hle, seg, err, rfl, rfl, herr⟩⟩
  · rename_i hle
    simp only [Option.some.injEq] at h
    subst h
    exact ⟨rfl, rfl, rfl, Or.inr ⟨hle, rfl⟩⟩

theorem removeSurplus_some (t : TransStream μ) (w : World)
    (h : t.playlistLength ≤ t.M3U8Writer.Size → t.M3U8Writer.playlist ≠ []) :
    ∃ wc, removeSurplus t w = some wc := by
  unfold removeSurplus
  by_cases hle : t.playlistLength ≤ t.M3U8Writer.Size
  · rw [if_pos hle]
    cases hp : t.M3U8Writer.playlist with
    | nil => exact absurd hp (h hle)
    | cons seg rest =>
      simp [libhls.M3U8Writer.Get, hp]
  · rw [if_neg hle]; exact ⟨_, rfl⟩

theorem writeM3U8File_spec (w : World) (f : Option os.File) (txt : String) :
    w.HandleOps (writeM3U8File w f txt).1 ∧ (writeM3U8File w f txt).1.openFds = w.openFds := by
  unfold writeM3U8File
  cases f with
  | none => exact ⟨World.HandleOps.stay w, rfl⟩
  | some f =>
    simp only
    have hs := os.File.Seek0_handleOps w f
    have hso := os.File.Seek0_openFds w f
    cases hsk : os.File.Seek0 w f with
    | mk w1 e1 =>
      rw [hsk] at hs hso
      cases e1 with
      | some e => exact ⟨hs, hso⟩
      | none =>
        simp only
        have ht := os.File.Truncate0_handleOps w1 f
        have hto := os.File.Truncate0_openFds w1 f
        cases htr : os.File.Truncate0 w1 f with
        | mk w2 e2 =>
          rw [htr] at ht hto
          cases e2 with
          | some e => exact ⟨hs.followedBy ht, hto.trans hso⟩
          | none =>
            exact ⟨(hs.followedBy ht).followedBy (os.File.Write_handleOps _ _ _),
              (os.File.Write_openFds _ _ _).trans (hto.trans hso)⟩

theorem writeM3U8File_ok (w : World) (f : Option os.File) (txt : String)
    (hfault : ∀ n, w.fault n = none) (hopen : ∀ g, f = some g → g.fd ∈ w.openFds) :
    (writeM3U8File w f txt).2 = none := by
  unfold writeM3U8File
  cases f with
  | none => rfl
  | some f =>
    have ho := hopen f rfl
    simp [os.File.Seek0, os.File.Truncate0, os.File.Write, ho, hfault, World.step]

theorem notifySinks_fst (u : TransStream μ) (v : World) :
    (notifySinks u v).1 =
      { u with m3u8Sinks := if releasesSinks u then some [] else u.m3u8Sinks } := by
  unfold notifySinks
  cases releasesSinks u <;> rfl

theorem notifySinks_snd (u : TransStream μ) (v : World) :
    (notifySinks u v).2 =
      { v with trace := v.trace ++
          (if releasesSinks u then
            (sinkList u.m3u8Sinks).map (fun s => Event.sendM3U8Data s u.PlaylistFormat)
           else []) } := by
  unfold notifySinks
  cases releasesSinks u
  · simp
  · simp [sendAll_eq]

/-- Shape of a `flushSegment` that returns without error. -/
theorem flushSegment_ok (X : Deps μ) (t t1 : TransStream μ) (w w1 : World) (e : Bool)
    (h : TransStream.flushSegment X t w e = some (t1, w1, none)) :
    ∃ m A R B, t.muxer = some m ∧
      t1 = { t with
              context := { t.context with writeBufferSize := 0 },
              M3U8Writer := nextWriter X t m,
              PlaylistFormat := X.m3u8Text (nextWriter X t m).playlist,
              m3u8Sinks :=
                if 0 < (sinkList t.m3u8Sinks).length ∧ 1 < (nextWriter X t m).Size then some []
                else t.m3u8Sinks } ∧
      w1.trace = w.trace ++ A ++ R ++ [Event.addSegment (currentSegment X t m)] ++ B ++
        (if 0 < (sinkList t.m3u8Sinks).length ∧ 1 < (nextWriter X t m).Size then
          (sinkList t.m3u8Sinks).map
            (fun s => Event.sendM3U8Data s (X.m3u8Text (nextWriter X t m).playlist))
         else []) ∧
      (∀ x ∈ A, x.isHandleOp = true) ∧ (∀ x ∈ B, x.isHandleOp = true) ∧
      ((t.playlistLength ≤ t.M3U8Writer.Size ∧
          ∃ seg err, t.M3U8Writer.Get 0 = some seg ∧ R = [Event.remove seg.Path err]) ∨
        (¬ t.playlistLength ≤ t.M3U8Writer.Size ∧ R = [])) ∧
      w1.fault = w.fault ∧ w1.nextFd = w.nextFd := by
  obtain ⟨ta, wa, hfb, hcase⟩ := flushSegment_inv X t t1 w w1 e none h
  obtain ⟨hta, hA, -, -, -⟩ := flushBuffer_spec t ta w wa hfb
  rcases hcase with ⟨err, -, -, hr⟩ | ⟨wb, wc, m, hclose, hrem, hm, hcase2⟩
  · exact absurd hr (by simp)
  rcases hcase2 with ⟨err, -, -, hr⟩ | ⟨wd, hwr, ht1, hw1, -⟩
  · exact absurd hr (by simp)
  have hB : wa.HandleOps wb := by
    have := os.File.Close_handleOps wa ta.context.file
    rw [hclose] at this
    exact this
  obtain ⟨fa, na, A, hAt, hAp⟩ := hA.followedBy hB
  obtain ⟨fc, -, nc, hR⟩ := removeSurplus_spec ta wb wc hrem
  have hD := (writeM3U8File_spec (updatePlaylist X ta m wc).2 ta.m3u8File
    (updatePlaylist X ta m wc).1.PlaylistFormat).1
  rw [hwr] at hD
  obtain ⟨fd, nd, B, hBt, hBp⟩ := hD
  have hwdt : wd.trace = w.trace ++ A ++ (wc.trace.drop wb.trace.length) ++
      [Event.addSegment (currentSegment X t m)] ++ B := by
    rw [hBt]
    show (wc.trace ++ [Event.addSegment (currentSegment X ta m)]) ++ B = _
    have hcs : currentSegment X ta m = currentSegment X t m := by rw [hta]; rfl
    rw [hcs]
    congr 2
    rcases hR with ⟨-, seg, err, -, -, htr⟩ | ⟨-, hwc⟩
    · rw [htr, hAt]; simp
    · rw [hwc, hAt]; simp
  have hrel : releasesSinks (updatePlaylist X ta m wc).1 =
      decide (0 < (sinkList t.m3u8Sinks).length ∧ 1 < (nextWriter X t m).Size) := by
    rw [hta]; rfl
  rw [notifySinks_fst, hrel] at ht1
  rw [notifySinks_snd, hrel] at hw1
  refine ⟨m, A, (wc.trace.drop wb.trace.length), B, by rw [← hm, hta], ?_, ?_, hAp, hBp, ?_, ?_, ?_⟩
  · rw [ht1, hta]
    simp only [updatePlaylist, decide_eq_true_eq]
    rfl
  · rw [hw1]
    simp only [decide_eq_true_eq]
    rw [hwdt, hta]
    rfl
  · rcases hR with ⟨hle, seg, err, hg, -, htr⟩ | ⟨hle, hwc⟩
    · rw [hta] at hle hg
      exact Or.inl ⟨hle, seg, err, hg, by rw [htr]; simp⟩
    · rw [hta] at hle
      exact Or.inr ⟨hle, by rw [hwc]; simp⟩
  · rw [hw1]
    show wd.fault = _
    rw [fd]
    show wc.fault = _
    rw [fc, fa]
  · rw [hw1]
    show wd.nextFd = _
    rw [nd]
    show wc.nextFd = _
    rw [nc, na]

end hls

namespace hls

variable {μ : Type}

theorem filterMap_sent_sends (pend : List SinkID) (txt : String) :
    (pend.map (fun s => Event.sendM3U8Data s txt)).filterMap Event.sent
      = pend.map (fun s => (s, txt)) := by
  induction pend with
  | nil => rfl
  | cons s rest ih => simp [Event.sent, ih]

theorem filterMap_nil_sends (pend : List SinkID) (txt : String) :
    (pend.map (fun s => Event.sendM3U8Data s txt)).filterMap Event.nilNotified = [] := by
  induction pend with
  | nil => rfl
  | cons s rest ih => simp [Event.nilNotified, ih]

theorem filterMap_nil_cbs (pend : List SinkID) :
    (pend.map (fun s => Event.cbNil s)).filterMap Event.nilNotified = pend := by
  induction pend with
  | nil => rfl
  | cons s rest ih => simp [Event.nilNotified, ih]

theorem filterMap_sent_cbs (pend : List SinkID) :
    (pend.map (fun s => Event.cbNil s)).filterMap Event.sent = [] := by
  induction pend with
  | nil => rfl
  | cons s rest ih => simp [Event.sent, ih]

/-- What a successful `flushSegment` adds to the deliveries and to the empty
notifications of the trace. -/
theorem flushSegment_ok_notifications (X : Deps μ) (t t1 : TransStream μ) (w w1 : World)
    (e : Bool) (h : TransStream.flushSegment X t w e = some (t1, w1, none)) :
    t1.PlaylistFormat = X.m3u8Text t1.M3U8Writer.playlist ∧
    w1.trace.filterMap Event.nilNotified = w.trace.filterMap Event.nilNotified ∧
    ((0 < (sinkList t.m3u8Sinks).length ∧ 1 < t1.M3U8Writer.Size) →
      w1.trace.filterMap Event.sent = w.trace.filterMap Event.sent ++
        (sinkList t.m3u8Sinks).map (fun s => (s, t1.PlaylistFormat)) ∧
      t1.m3u8Sinks = some []) ∧
    (¬ (0 < (sinkList t.m3u8Sinks).length ∧ 1 < t1.M3U8Writer.Size) →
      w1.trace.filterMap Event.sent = w.trace.filterMap Event.sent ∧
      t1.m3u8Sinks = t.m3u8Sinks) := by
  obtain ⟨m, A, R, B, hm, ht1, htr, hA, hB, hR, -, -⟩ := flushSegment_ok X t t1 w w1 e h
  have hAs := filterMap_handleOps Event.sent sent_handleOp A hA
  have hBs := filterMap_handleOps Event.sent sent_handleOp B hB
  have hAn := filterMap_handleOps Event.nilNotified nilNotified_handleOp A hA
  have hBn := filterMap_handleOps Event.nilNotified nilNotified_handleOp B hB
  have hRs : R.filterMap Event.sent = [] := by
    rcases hR with ⟨-, seg, err, -, hr⟩ | ⟨-, hr⟩ <;> rw [hr] <;> rfl
  have hRn : R.filterMap Event.nilNotified = [] := by
    rcases hR with ⟨-, seg, err, -, hr⟩ | ⟨-, hr⟩ <;> rw [hr] <;> rfl
  have hwr : t1.M3U8Writer = nextWriter X t m := by rw [ht1]
  have hpf : t1.PlaylistFormat = X.m3u8Text (nextWriter X t m).playlist := by rw [ht1]
  have hsk : t1.m3u8Sinks =
      if 0 < (sinkList t.m3u8Sinks).length ∧ 1 < (nextWriter X t m).Size then some []
      else t.m3u8Sinks := by rw [ht1]
  refine ⟨by rw [hpf, hwr], ?_, ?_, ?_⟩
  · rw [htr]
    simp only [List.filterMap_append, hAn, hBn, hRn, List.append_nil]
    split
    · simp [filterMap_nil_sends, Event.nilNotified]
    · simp [Event.nilNotified]
  · intro hc
    rw [hwr] at hc
    rw [htr, hsk, if_pos hc, if_pos hc, hpf]
    simp only [List.filterMap_append, hAs, hBs, hRs, List.append_nil, filterMap_sent_sends]
    simp [Event.sent]
  · intro hc
    rw [hwr] at hc
    rw [htr, hsk, if_neg hc, if_neg hc]
    simp only [List.filterMap_append, hAs, hBs, hRs, List.append_nil]
    simp [Event.sent]

/-- C3. For a sink with waiting consumers, a `flushSegment` that completes a
segment delivers the playlist only if the playlist holds at least two entries
after the append: with at least two entries every waiting consumer is sent the
current playlist text exactly once, in one `SendM3U8Data` call each, and the
pending set becomes empty; with fewer than two entries nobody is notified and
the pending set is unchanged. No empty notification is issued either way. -/
theorem C3_flushSegment_releases_pending (X : Deps μ) (t t1 : TransStream μ) (w w1 : World)
    (e : Bool) (hpend : sinkList t.m3u8Sinks ≠ [])
    (h : TransStream.flushSegment X t w e = some (t1, w1, none)) :
    t1.PlaylistFormat = X.m3u8Text t1.M3U8Writer.playlist ∧
    w1.trace.filterMap Event.nilNotified = w.trace.filterMap Event.nilNotified ∧
    (2 ≤ t1.M3U8Writer.Size →
      w1.trace.filterMap Event.sent = w.trace.filterMap Event.sent ++
        (sinkList t.m3u8Sinks).map (fun s => (s, t1.PlaylistFormat)) ∧
      sinkList t1.m3u8Sinks = []) ∧
    (t1.M3U8Writer.Size < 2 →
      w1.trace.filterMap Event.sent = w.trace.filterMap Event.sent ∧
      t1.m3u8Sinks = t.m3u8Sinks) := by
  obtain ⟨h1, h2, h3, h4⟩ := flushSegment_ok_notifications X t t1 w w1 e h
  have hlen : 0 < (sinkList t.m3u8Sinks).length := List.length_pos.mpr hpend
  refine ⟨h1, h2, ?_, ?_⟩
  · intro hsz
    obtain ⟨a, b⟩ := h3 ⟨hlen, by omega⟩
    exact ⟨a, by rw [b]; rfl⟩
  · intro hsz
    exact h4 (fun hc => by omega)

end hls

theorem notified_handleOp (e : Event) (h : e.isHandleOp = true) : e.notified = none := by
  cases e <;> simp_all [Event.isHandleOp, Event.notified]

theorem World.HandleOps.filterMap_eq {α : Type} {w w1 : World} (h : w.HandleOps w1)
    (f : Event → Option α) (hf : ∀ e, e.isHandleOp = true → f e = none) :
    w1.trace.filterMap f = w.trace.filterMap f := by
  obtain ⟨-, -, es, htr, hes⟩ := h
  rw [htr, List.filterMap_append, filterMap_handleOps f hf es hes, List.append_nil]

namespace hls

variable {μ : Type}

theorem filterMap_notified_sends (pend : List SinkID) (txt : String) :
    (pend.map (fun s => Event.sendM3U8Data s txt)).filterMap Event.notified = pend := by
  induction pend with
  | nil => rfl
  | cons s rest ih => simp [Event.notified, ih]

theorem filterMap_notified_cbs (pend : List SinkID) :
    (pend.map (fun s => Event.cbNil s)).filterMap Event.notified = pend := by
  induction pend with
  | nil => rfl
  | cons s rest ih => simp [Event.notified, ih]

/-- A `flushSegment` that returns an error notifies nobody and keeps the
pending set. -/
theorem flushSegment_err_notifications (X : Deps μ) (t t1 : TransStream μ) (w w1 : World)
    (e : Bool) (err : GoError)
    (h : TransStream.flushSegment X t w e = some (t1, w1, some err)) :
    t1.m3u8Sinks = t.m3u8Sinks ∧
    w1.trace.filterMap Event.sent = w.trace.filterMap Event.sent ∧
    w1.trace.filterMap Event.nilNotified = w.trace.filterMap Event.nilNotified ∧
    w1.trace.filterMap Event.notified = w.trace.filterMap Event.notified := by
  obtain ⟨ta, wa, hfb, hcase⟩ := flushSegment_inv X t t1 w w1 e (some err) h
  obtain ⟨hta, hA, -, -, -⟩ := flushBuffer_spec t ta w wa hfb
  rcases hcase with ⟨cerr, hclose, ht1, -⟩ | ⟨wb, wc, m, hclose, hrem, hm, hcase2⟩
  · have hB : wa.HandleOps w1 := by
      have := os.File.Close_handleOps wa ta.context.file
      rw [hclose] at this
      exact this
    have hAB := hA.followedBy hB
    exact ⟨by rw [ht1, hta], hAB.filterMap_eq _ sent_handleOp,
      hAB.filterMap_eq _ nilNotified_handleOp, hAB.filterMap_eq _ notified_handleOp⟩
  rcases hcase2 with ⟨werr, hwr, ht1, -⟩ | ⟨wd, -, -, -, hr⟩
  · have hB : wa.HandleOps wb := by
      have := os.File.Close_handleOps wa ta.context.file
      rw [hclose] at this
      exact this
    have hAB := hA.followedBy hB
    have hD := (writeM3U8File_spec (updatePlaylist X ta m wc).2 ta.m3u8File
      (updatePlaylist X ta m wc).1.PlaylistFormat).1
    rw [hwr] at hD
    obtain ⟨-, -, -, hR⟩ := removeSurplus_spec ta wb wc hrem
    have hmid : ∀ {α : Type} (f : Event → Option α),
        (∀ p er, f (Event.remove p er) = none) → (∀ sg, f (Event.addSegment sg) = none) →
        (updatePlaylist X ta m wc).2.trace.filterMap f = wb.trace.filterMap f := by
      intro α f h1 h2
      show (wc.trace ++ [Event.addSegment _]).filterMap f = _
      rcases hR with ⟨-, seg, er, -, -, htr⟩ | ⟨-, hwc⟩
      · rw [htr]; simp [h1, h2]
      · rw [hwc]; simp [h2]
    refine ⟨by rw [ht1, hta]; rfl, ?_, ?_, ?_⟩
    · rw [hD.filterMap_eq _ sent_handleOp, hmid _ (fun _ _ => rfl) (fun _ => rfl),
        hAB.filterMap_eq _ sent_handleOp]
    · rw [hD.filterMap_eq _ nilNotified_handleOp, hmid _ (fun _ _ => rfl) (fun _ => rfl),
        hAB.filterMap_eq _ nilNotified_handleOp]
    · rw [hD.filterMap_eq _ notified_handleOp, hmid _ (fun _ _ => rfl) (fun _ => rfl),
        hAB.filterMap_eq _ notified_handleOp]
  · exact absurd hr (by simp)

/-- The notified consumers added by a successful `flushSegment`. -/
theorem flushSegment_ok_notified (X : Deps μ) (t t1 : TransStream μ) (w w1 : World)
    (e : Bool) (h : TransStream.flushSegment X t w e = some (t1, w1, none)) :
    w1.trace.filterMap Event.notified = w.trace.filterMap Event.notified ++
      (if 0 < (sinkList t.m3u8Sinks).length ∧ 1 < t1.M3U8Writer.Size then sinkList t.m3u8Sinks
       else []) := by
  obtain ⟨m, A, R, B, hm, ht1, htr, hA, hB, hR, -, -⟩ := flushSegment_ok X t t1 w w1 e h
  have hAs := filterMap_handleOps Event.notified notified_handleOp A hA
  have hBs := filterMap_handleOps Event.notified notified_handleOp B hB
  have hRs : R.filterMap Event.notified = [] := by
    rcases hR with ⟨-, seg, err, -, hr⟩ | ⟨-, hr⟩ <;> rw [hr] <;> rfl
  have hwr : t1.M3U8Writer = nextWriter X t m := by rw [ht1]
  rw [htr, hwr]
  simp only [List.filterMap_append, hAs, hBs, hRs, List.append_nil]
  split
  · simp only [filterMap_notified_sends]
    simp [Event.notified]
  · simp [Event.notified]

/-- Every way in which `Close` returns: an optional final `flushSegment`,
then calls on file handles only, then the empty notifications. -/
theorem Close_inv (X : Deps μ) (t t1 : TransStream μ) (w w1 : World) (r : CloseResult)
    (h : TransStream.Close X t w = some (t1, w1, r)) :
    ∃ tm wm wn,
      ((t.context.file = none ∧ tm = t ∧ wm = w) ∨
        (∃ rf, t.context.file ≠ none ∧ TransStream.flushSegment X t w true = some (tm, wm, rf))) ∧
      wm.HandleOps wn ∧ w1 = cbAll wn (sinkList tm.m3u8Sinks) ∧
      t1.M3U8Writer = tm.M3U8Writer ∧ t1.PlaylistFormat = tm.PlaylistFormat ∧
      t1.m3u8Sinks = none := by
  unfold TransStream.Close at h
  have hm3 : ∀ (u : TransStream μ) (v : World) (e1 : Option GoError),
      v.HandleOps (match u.m3u8File with
        | some f => ((os.File.Close v (some f)).1, (os.File.Close v (some f)).2.map GoError.os)
        | none => (v, e1)).1 := by
    intro u v e1
    cases u.m3u8File with
    | none => exact World.HandleOps.stay v
    | some f => exact os.File.Close_handleOps v (some f)
  cases hf : t.context.file with
  | none =>
    simp only [hf, Option.some.injEq, Prod.mk.injEq] at h
    obtain ⟨h1, h2, -⟩ := h
    refine ⟨t, w, _, Or.inl ⟨rfl, rfl, rfl⟩, hm3 { t with muxer := none } w none, ?_, ?_, ?_, ?_⟩
    · rw [← h2]
    · rw [← h1]
    · rw [← h1]
    · rw [← h1]
  | some f =>
    simp only [hf] at h
    cases hfl : TransStream.flushSegment X t w true with
    | none => simp [hfl] at h
    | some res =>
      obtain ⟨tm, wm, rf⟩ := res
      simp only [hfl, Option.some.injEq, Prod.mk.injEq] at h
      obtain ⟨h1, h2, -⟩ := h
      refine ⟨tm, wm, _, Or.inr ⟨rf, by simp, rfl⟩,
        (os.File.Close_handleOps wm tm.context.file).followedBy
          (hm3 { tm with context := { tm.context with file := none }, muxer := none } _
            ((os.File.Close wm tm.context.file).2.map GoError.os)),
        ?_, ?_, ?_, ?_⟩
      · rw [← h2]
      · rw [← h1]
      · rw [← h1]
      · rw [← h1]

end hls

namespace hls

variable {μ : Type}

/-- The three observations after the final stage of `Close`. -/
theorem cbAll_observed (wm wn : World) (pend : List SinkID) (h : wm.HandleOps wn) :
    (cbAll wn pend).trace.filterMap Event.notified = wm.trace.filterMap Event.notified ++ pend ∧
    (cbAll wn pend).trace.filterMap Event.nilNotified
      = wm.trace.filterMap Event.nilNotified ++ pend ∧
    (cbAll wn pend).trace.filterMap Event.sent = wm.trace.filterMap Event.sent := by
  rw [cbAll_eq]
  simp only [List.filterMap_append, filterMap_notified_cbs, filterMap_nil_cbs,
    filterMap_sent_cbs, List.append_nil]
  rw [h.filterMap_eq _ notified_handleOp, h.filterMap_eq _ nilNotified_handleOp,
    h.filterMap_eq _ sent_handleOp]
  exact ⟨rfl, rfl, rfl⟩

/-- C4. After `Close` returns, no consumer remains in the pending set and
every consumer that was pending when `Close` was called has been notified
exactly once (the notified consumers added to the trace are exactly the
pending ones). If fewer than two playlist entries exist after the final flush,
or the final flush fails, or there is no open segment to flush, each of them
is notified with nil and no playlist is delivered. -/
theorem C4_Close_notifies_pending (X : Deps μ) (t t1 : TransStream μ) (w w1 : World)
    (r : CloseResult) (h : TransStream.Close X t w = some (t1, w1, r)) :
    t1.m3u8Sinks = none ∧ sinkList t1.m3u8Sinks = [] ∧
    w1.trace.filterMap Event.notified
      = w.trace.filterMap Event.notified ++ sinkList t.m3u8Sinks ∧
    ((t1.M3U8Writer.Size < 2 ∨ t.context.file = none ∨
        ∃ tf wf err, TransStream.flushSegment X t w true = some (tf, wf, some err)) →
      w1.trace.filterMap Event.nilNotified
        = w.trace.filterMap Event.nilNotified ++ sinkList t.m3u8Sinks ∧
      w1.trace.filterMap Event.sent = w.trace.filterMap Event.sent) := by
  obtain ⟨tm, wm, wn, hstage, hops, hw1, hwr, -, hsinks⟩ := Close_inv X t t1 w w1 r h
  obtain ⟨o1, o2, o3⟩ := cbAll_observed wm wn (sinkList tm.m3u8Sinks) hops
  rw [← hw1] at o1 o2 o3
  refine ⟨hsinks, by rw [hsinks]; rfl, ?_, ?_⟩
  · rcases hstage with ⟨-, htm, hwm⟩ | ⟨rf, -, hfl⟩
    · rw [o1, htm, hwm]
    · cases rf with
      | some err =>
        obtain ⟨e1, -, -, e4⟩ := flushSegment_err_notifications X t tm w wm true err hfl
        rw [o1, e1, e4]
      | none =>
        have e4 := flushSegment_ok_notified X t tm w wm true hfl
        obtain ⟨-, -, k3, k4⟩ := flushSegment_ok_notifications X t tm w wm true hfl
        by_cases hc : 0 < (sinkList t.m3u8Sinks).length ∧ 1 < tm.M3U8Writer.Size
        · rw [o1, e4, if_pos hc, (k3 hc).2]
          simp [sinkList]
        · rw [o1, e4, if_neg hc, (k4 hc).2]
          simp
  · intro hnil
    rcases hstage with ⟨-, htm, hwm⟩ | ⟨rf, hfile, hfl⟩
    · rw [o2, o3, htm, hwm]
      exact ⟨rfl, rfl⟩
    · cases rf with
      | some err =>
        obtain ⟨e1, e2, e3, -⟩ := flushSegment_err_notifications X t tm w wm true err hfl
        rw [o2, o3, e1, e2, e3]
        exact ⟨rfl, rfl⟩
      | none =>
        obtain ⟨-, k2, k3, k4⟩ := flushSegment_ok_notifications X t tm w wm true hfl
        have hc : ¬ (0 < (sinkList t.m3u8Sinks).length ∧ 1 < tm.M3U8Writer.Size) ∨
            sinkList t.m3u8Sinks = [] := by
          rcases hnil with hsz | hnone | ⟨tf, wf, err, hfe⟩
          · rw [hwr] at hsz
            exact Or.inl (fun hc => by omega)
          · exact absurd hnone hfile
          · rw [hfl] at hfe
            simp at hfe
        have hc2 : ¬ (0 < (sinkList t.m3u8Sinks).length ∧ 1 < tm.M3U8Writer.Size) := by
          rcases hc with hc | hc
          · exact hc
          · intro hc3
            rw [hc] at hc3
            simp at hc3
        rw [o2, o3, (k4 hc2).2, (k4 hc2).1, k2]
        exact ⟨rfl, rfl⟩

end hls

namespace hls

variable {μ : Type}

theorem TransStream.BufferOnly.unchanged (t : TransStream μ) : t.BufferOnly t := rfl

theorem TransStream.BufferOnly.composed {t t1 t2 : TransStream μ} (h1 : t.BufferOnly t1)
    (h2 : t1.BufferOnly t2) : t.BufferOnly t2 := by
  unfold TransStream.BufferOnly at *
  rw [h2, h1]

theorem overwrite_length (buf : List Byte) (off : Nat) (data : List Byte)
    (h : off + data.length ≤ buf.length) : (overwrite buf off data).length = buf.length := by
  unfold overwrite
  simp only [List.length_append, List.length_take, List.length_drop]
  omega

theorem overwrite_take (buf : List Byte) (off : Nat) (data : List Byte)
    (h : off + data.length ≤ buf.length) :
    (overwrite buf off data).take (off + data.length) = buf.take off ++ data := by
  unfold overwrite
  have h1 : (buf.take off ++ data).length = off + data.length := by
    simp only [List.length_append, List.length_take]
    omega
  rw [← h1, List.take_left]

theorem onTSAlloc_spec (t : TransStream μ) (w : World) (size : Nat)
    (hw : t.context.writeBufferSize ≤ t.context.writeBuffer.length)
    (hs : size ≤ t.context.writeBuffer.length) :
    ∃ w1 off, t.onTSAlloc w size =
        some ({ t with context := { t.context with writeBufferSize := off } }, w1, off) ∧
      off + size ≤ t.context.writeBuffer.length ∧
      ((off = t.context.writeBufferSize ∧ w1 = w) ∨
       (off = 0 ∧ w1 = (os.File.Write w t.context.file t.buffered).1)) := by
  unfold TransStream.onTSAlloc
  by_cases hn : ((t.context.writeBuffer.length : Int) - (t.context.writeBufferSize : Int)
      < (size : Int))
  · rw [if_pos hn, if_pos hw, if_pos hs]
    exact ⟨_, 0, rfl, by omega, Or.inr ⟨rfl, rfl⟩⟩
  · rw [if_neg hn]
    exact ⟨w, t.context.writeBufferSize, rfl, by omega, Or.inl ⟨rfl, rfl⟩⟩

theorem onTSAlloc_inv (t t1 : TransStream μ) (w w1 : World) (size off : Nat)
    (h : t.onTSAlloc w size = some (t1, w1, off)) :
    t1 = { t with context := { t.context with writeBufferSize := off } } ∧
      off + size ≤ t.context.writeBuffer.length ∧
      ((off = t.context.writeBufferSize ∧ w1 = w) ∨
       (off = 0 ∧ w1 = (os.File.Write w t.context.file t.buffered).1)) := by
  unfold TransStream.onTSAlloc at h
  split at h
  · split at h
    · split at h
      · rename_i h1 h2 h3
        simp only [Option.some.injEq, Prod.mk.injEq] at h
        obtain ⟨a, b, c⟩ := h
        subst a b c
        exact ⟨rfl, by omega, Or.inr ⟨rfl, rfl⟩⟩
      · exact absurd h (by simp)
    · exact absurd h (by simp)
  · rename_i hn
    simp only [Option.some.injEq, Prod.mk.injEq] at h
    obtain ⟨a, b, c⟩ := h
    subst a b c
    exact ⟨rfl, by omega, Or.inl ⟨rfl, rfl⟩⟩

/-- Every way in which one span is processed. -/
theorem writeSpan_inv (t t1 : TransStream μ) (w w1 : World) (sp : libmpeg.Span)
    (h : t.writeSpan w sp = some (t1, w1)) :
    ∃ off, off + sp.size ≤ t.context.writeBuffer.length ∧ sp.data.length ≤ sp.size ∧
      t1 = { t with context :=
              { t.context with
                writeBuffer := overwrite t.context.writeBuffer off sp.data,
                writeBufferSize := off + sp.data.length } } ∧
      ((off = t.context.writeBufferSize ∧ w1 = w) ∨
       (off = 0 ∧ w1 = (os.File.Write w t.context.file t.buffered).1)) := by
  unfold TransStream.writeSpan at h
  cases ha : t.onTSAlloc w sp.size with
  | none => simp [ha] at h
  | some res =>
    obtain ⟨ta, wa, off⟩ := res
    simp only [ha] at h
    obtain ⟨hta, hoff, hw⟩ := onTSAlloc_inv t ta w wa sp.size off ha
    split at h
    · rename_i hd
      simp only [Option.some.injEq, Prod.mk.injEq] at h
      obtain ⟨a, b⟩ := h
      subst b
      refine ⟨off, hoff, hd, ?_, hw⟩
      rw [← a, hta]
      rfl
    · exact absurd h (by simp)

theorem writeSpan_some (t : TransStream μ) (w : World) (sp : libmpeg.Span)
    (hw : t.context.writeBufferSize ≤ t.context.writeBuffer.length)
    (hfit : Fits t.context.writeBuffer.length sp) :
    ∃ t1 w1, t.writeSpan w sp = some (t1, w1) := by
  obtain ⟨w1, off, ha, -, -⟩ := onTSAlloc_spec t w sp.size hw hfit.1
  unfold TransStream.writeSpan
  rw [ha]
  simp only
  rw [if_pos hfit.2]
  exact ⟨_, _, rfl⟩

theorem writeSpan_frame (t t1 : TransStream μ) (w w1 : World) (sp : libmpeg.Span)
    (h : t.writeSpan w sp = some (t1, w1)) :
    t.BufferOnly t1 ∧ w.HandleOps w1 ∧ w1.openFds = w.openFds ∧
      t1.context.writeBuffer.length = t.context.writeBuffer.length ∧
      t1.context.writeBufferSize ≤ t1.context.writeBuffer.length := by
  obtain ⟨off, hoff, hd, ht1, hw⟩ := writeSpan_inv t t1 w w1 sp h
  have hlen : (overwrite t.context.writeBuffer off sp.data).length
      = t.context.writeBuffer.length := overwrite_length _ _ _ (by omega)
  refine ⟨?_, ?_, ?_, ?_, ?_⟩
  · unfold TransStream.BufferOnly
    rw [ht1]
  · rcases hw with ⟨-, h1⟩ | ⟨-, h1⟩
    · rw [h1]; exact World.HandleOps.stay w
    · rw [h1]; exact os.File.Write_handleOps _ _ _
  · rcases hw with ⟨-, h1⟩ | ⟨-, h1⟩
    · rw [h1]
    · rw [h1]; exact os.File.Write_openFds _ _ _
  · rw [ht1]; exact hlen
  · rw [ht1]
    show off + sp.data.length ≤ (overwrite t.context.writeBuffer off sp.data).length
    rw [hlen]
    omega

theorem writeSpans_frame (sps : List libmpeg.Span) :
    ∀ (t t1 : TransStream μ) (w w1 : World),
      TransStream.writeSpans t w sps = some (t1, w1) →
      t.BufferOnly t1 ∧ w.HandleOps w1 ∧ w1.openFds = w.openFds ∧
        t1.context.writeBuffer.length = t.context.writeBuffer.length ∧
        (t.context.writeBufferSize ≤ t.context.writeBuffer.length →
          t1.context.writeBufferSize ≤ t1.context.writeBuffer.length) := by
  induction sps with
  | nil =>
    intro t t1 w w1 h
    simp only [TransStream.writeSpans, Option.some.injEq, Prod.mk.injEq] at h
    obtain ⟨a, b⟩ := h
    subst a b
    exact ⟨TransStream.BufferOnly.unchanged t, World.HandleOps.stay w, rfl, rfl, fun x => x⟩
  | cons sp rest ih =>
    intro t t1 w w1 h
    simp only [TransStream.writeSpans] at h
    cases hs : t.writeSpan w sp with
    | none => simp [hs] at h
    | some res =>
      obtain ⟨ta, wa⟩ := res
      simp only [hs] at h
      obtain ⟨a1, a2, a3, a4, a5⟩ := writeSpan_frame t ta w wa sp hs
      obtain ⟨b1, b2, b3, b4, b5⟩ := ih ta t1 wa w1 h
      exact ⟨a1.composed b1, a2.followedBy b2, b3.trans a3, b4.trans a4, fun _ => b5 a5⟩

theorem writeSpans_some (sps : List libmpeg.Span) :
    ∀ (t : TransStream μ) (w : World),
      t.context.writeBufferSize ≤ t.context.writeBuffer.length →
      (∀ sp ∈ sps, Fits t.context.writeBuffer.length sp) →
      ∃ t1 w1, TransStream.writeSpans t w sps = some (t1, w1) := by
  induction sps with
  | nil => intro t w _ _; exact ⟨t, w, rfl⟩
  | cons sp rest ih =>
    intro t w hw hfit
    obtain ⟨ta, wa, hs⟩ := writeSpan_some t w sp hw (hfit sp (List.mem_cons_self _ _))
    obtain ⟨-, -, -, a4, a5⟩ := writeSpan_frame t ta w wa sp hs
    obtain ⟨t1, w1, h1⟩ := ih ta wa a5 (fun x hx => by
      rw [a4]; exact hfit x (List.mem_cons_of_mem _ hx))
    exact ⟨t1, w1, by simp only [TransStream.writeSpans, hs, h1]⟩

end hls

namespace hls

variable {μ : Type}

theorem attempts_succ (X : Deps μ) (t : TransStream μ) (w : World) (s : Int) (n : Nat) :
    attempts X t w s (n + 1) =
      attempts X t w s n ++ [(segPath X t (s + (n : Int)), w.fault (w.clock + n))] := by
  unfold attempts
  rw [List.range_succ, List.map_append]
  rfl

theorem createSegmentLoop_path_irrelevant (X : Deps μ) (fuel : Nat) (t : TransStream μ)
    (w : World) (s : Int) (p u : String) :
    createSegmentLoop X fuel { t with context := { t.context with path := p, url := u } } w s
      = createSegmentLoop X fuel t w s := by
  cases fuel with
  | zero => rfl
  | succ n => rfl

theorem createSegmentLoop_step (X : Deps μ) (fuel : Nat) (t : TransStream μ) (w : World)
    (s : Int) (e : OsError) (hf : w.fault w.clock = some e) (hr : os.nonRetryable e = false) :
    createSegmentLoop X (fuel + 1) t w s =
      createSegmentLoop X fuel t (w.step (Event.openFile (segPath X t s) (some e))) (s + 1) := by
  rw [← createSegmentLoop_path_irrelevant X fuel t _ (s + 1) (segPath X t s) (segUrl X t s)]
  unfold os.nonRetryable at hr
  conv_lhs => unfold createSegmentLoop
  simp only [os.OpenFile, hf, hr]
  rfl

theorem attempts_cons (X : Deps μ) (t : TransStream μ) (w : World) (s : Int) (n : Nat)
    (ev : Event) :
    attempts X t w s (n + 1) =
      (segPath X t s, w.fault w.clock) :: attempts X t (w.step ev) (s + 1) n := by
  unfold attempts
  rw [List.range_succ_eq_map, List.map_cons, List.map_map]
  simp only [Nat.cast_zero, add_zero, Nat.add_zero, List.cons.injEq, true_and]
  apply List.map_congr_left
  intro j _
  simp only [Function.comp, Nat.succ_eq_add_one, Nat.cast_add, Nat.cast_one, World.step]
  have h1 : s + ((j : Int) + 1) = s + 1 + (j : Int) := by omega
  have h2 : w.clock + (j + 1) = w.clock + 1 + j := by omega
  rw [h1, h2]

theorem createSegmentLoop_skip (X : Deps μ) (t : TransStream μ) :
    ∀ (k fuel : Nat) (w : World) (s : Int),
      (∀ j, j < k → ∃ e, w.fault (w.clock + j) = some e ∧ os.nonRetryable e = false) →
      createSegmentLoop X (fuel + k) t w s
        = createSegmentLoop X fuel t (afterAttempts X t w s k) (s + (k : Int)) := by
  intro k
  induction k with
  | zero =>
    intro fuel w s _
    simp [afterAttempts, attempts]
  | succ k ih =>
    intro fuel w s hconf
    obtain ⟨e0, hf0, hr0⟩ := hconf 0 (Nat.succ_pos k)
    rw [Nat.add_zero] at hf0
    have hstep := createSegmentLoop_step X (fuel + k) t w s e0 hf0 hr0
    rw [show fuel + (k + 1) = fuel + k + 1 by omega, hstep]
    rw [ih fuel (w.step (Event.openFile (segPath X t s) (some e0))) (s + 1) (fun j hj => by
      have := hconf (j + 1) (by omega)
      simpa [World.step, Nat.add_assoc, Nat.add_comm 1 j] using this)]
    congr 1
    · unfold afterAttempts
      rw [attempts_cons X t w s k (Event.openFile (segPath X t s) (some e0)), hf0]
      simp only [World.step, List.map_cons, List.append_assoc, List.singleton_append]
      congr 1
      omega
    · push_cast; omega

theorem createSegmentLoop_ok (X : Deps μ) (fuel : Nat) (t : TransStream μ) (w : World)
    (s : Int) (hf : w.fault w.clock = none) :
    createSegmentLoop X (fuel + 1) t w s =
      some ({ t with context := { t.context with path := segPath X t s, url := segUrl X t s } },
            { w with
              files := putFile w.files (segPath X t s) [],
              openFds := w.nextFd :: w.openFds,
              nextFd := w.nextFd + 1,
              clock := w.clock + 1,
              trace := w.trace ++ [Event.openFile (segPath X t s) none] },
            Except.ok (s, ⟨w.nextFd, segPath X t s⟩)) := by
  unfold createSegmentLoop
  simp only [os.OpenFile, hf]
  rfl

theorem createSegmentLoop_fatal (X : Deps μ) (fuel : Nat) (t : TransStream μ) (w : World)
    (s : Int) (e : OsError) (hf : w.fault w.clock = some e) (hr : os.nonRetryable e = true) :
    createSegmentLoop X (fuel + 1) t w s =
      some ({ t with context := { t.context with path := segPath X t s, url := segUrl X t s } },
            w.step (Event.openFile (segPath X t s) (some e)), Except.error e) := by
  unfold os.nonRetryable at hr
  unfold createSegmentLoop
  simp only [os.OpenFile, hf, hr]
  rfl

end hls

namespace hls

variable {μ : Type}

/-- The world right after the successful attempt number `k` (counted from 0). -/
theorem createSegmentLoop_ok_at (X : Deps μ) (t : TransStream μ) (w : World) (s : Int)
    (k fuel : Nat) (hk : k < fuel)
    (hconf : ∀ j, j < k → ∃ e, w.fault (w.clock + j) = some e ∧ os.nonRetryable e = false)
    (hok : w.fault (w.clock + k) = none) :
    createSegmentLoop X fuel t w s =
      some ({ t with context :=
                { t.context with path := segPath X t (s + (k : Int)),
                                 url := segUrl X t (s + (k : Int)) } },
            { w with
              files := putFile w.files (segPath X t (s + (k : Int))) [],
              openFds := w.nextFd :: w.openFds,
              nextFd := w.nextFd + 1,
              clock := w.clock + (k + 1),
              trace := w.trace ++
                (attempts X t w s (k + 1)).map (fun a => Event.openFile a.1 a.2) },
            Except.ok (s + (k : Int), ⟨w.nextFd, segPath X t (s + (k : Int))⟩)) := by
  obtain ⟨d, hd⟩ : ∃ d, fuel = d + 1 + k := ⟨fuel - 1 - k, by omega⟩
  rw [hd, createSegmentLoop_skip X t k (d + 1) w s hconf,
    createSegmentLoop_ok X d t _ _ (by simpa [afterAttempts] using hok)]
  rw [attempts_succ, hok]
  simp [afterAttempts, Nat.add_assoc]

theorem createSegmentLoop_fatal_at (X : Deps μ) (t : TransStream μ) (w : World) (s : Int)
    (k fuel : Nat) (hk : k < fuel) (e : OsError)
    (hconf : ∀ j, j < k → ∃ e, w.fault (w.clock + j) = some e ∧ os.nonRetryable e = false)
    (hf : w.fault (w.clock + k) = some e) (hr : os.nonRetryable e = true) :
    createSegmentLoop X fuel t w s =
      some ({ t with context :=
                { t.context with path := segPath X t (s + (k : Int)),
                                 url := segUrl X t (s + (k : Int)) } },
            { w with
              clock := w.clock + (k + 1),
              trace := w.trace ++
                (attempts X t w s (k + 1)).map (fun a => Event.openFile a.1 a.2) },
            Except.error e) := by
  obtain ⟨d, hd⟩ : ∃ d, fuel = d + 1 + k := ⟨fuel - 1 - k, by omega⟩
  rw [hd, createSegmentLoop_skip X t k (d + 1) w s hconf,
    createSegmentLoop_fatal X d t _ _ e (by simpa [afterAttempts] using hf) hr]
  rw [attempts_succ, hf]
  simp [afterAttempts, World.step, Nat.add_assoc]

theorem filterMap_opened_attempts (l : List (String × Option OsError)) :
    (l.map (fun a => Event.openFile a.1 a.2)).filterMap Event.opened = l := by
  induction l with
  | nil => rfl
  | cons a rest ih => simp [Event.opened, ih]

/-- `createSegment` when attempt number `k` is the first that does not
conflict and it succeeds. -/
theorem createSegment_ok_at (X : Deps μ) (t : TransStream μ) (w : World) (m : μ)
    (k fuel : Nat) (hk : k < fuel) (hm : t.muxer = some m)
    (hconf : ∀ j, j < k → ∃ e, w.fault (w.clock + j) = some e ∧ os.nonRetryable e = false)
    (hok : w.fault (w.clock + k) = none)
    (hbuf : t.context.writeBufferSize ≤ t.context.writeBuffer.length)
    (hfit : ∀ sp ∈ (X.mux.WriteHeader (X.mux.Reset m)).2, Fits t.context.writeBuffer.length sp) :
    ∃ t1 w1, TransStream.createSegment X fuel t w = some (t1, w1, none) ∧
      TransStream.BufferOnly
        { t with
          muxer := some (X.mux.WriteHeader (X.mux.Reset m)).1,
          context :=
            { t.context with
              segmentSeq := t.context.segmentSeq + 1 + (k : Int),
              file := some ⟨w.nextFd, segPath X t (t.context.segmentSeq + 1 + (k : Int))⟩,
              path := segPath X t (t.context.segmentSeq + 1 + (k : Int)),
              url := segUrl X t (t.context.segmentSeq + 1 + (k : Int)) } } t1 ∧
      World.HandleOps
        { w with
          files := putFile w.files (segPath X t (t.context.segmentSeq + 1 + (k : Int))) [],
          openFds := w.nextFd :: w.openFds,
          nextFd := w.nextFd + 1,
          clock := w.clock + (k + 1),
          trace := w.trace ++ (attempts X t w (t.context.segmentSeq + 1) (k + 1)).map
            (fun a => Event.openFile a.1 a.2) } w1 ∧
      w1.openFds = w.nextFd :: w.openFds ∧
      t1.context.writeBuffer.length = t.context.writeBuffer.length ∧
      t1.context.writeBufferSize ≤ t1.context.writeBuffer.length ∧
      TransStream.writeSpans
        { t with
          muxer := some (X.mux.WriteHeader (X.mux.Reset m)).1,
          context :=
            { t.context with
              segmentSeq := t.context.segmentSeq + 1 + (k : Int),
              file := some ⟨w.nextFd, segPath X t (t.context.segmentSeq + 1 + (k : Int))⟩,
              path := segPath X t (t.context.segmentSeq + 1 + (k : Int)),
              url := segUrl X t (t.context.segmentSeq + 1 + (k : Int)) } }
        { w with
          files := putFile w.files (segPath X t (t.context.segmentSeq + 1 + (k : Int))) [],
          openFds := w.nextFd :: w.openFds,
          nextFd := w.nextFd + 1,
          clock := w.clock + (k + 1),
          trace := w.trace ++ (attempts X t w (t.context.segmentSeq + 1) (k + 1)).map
            (fun a => Event.openFile a.1 a.2) }
        (X.mux.WriteHeader (X.mux.Reset m)).2 = some (t1, w1) := by
  have hloop := createSegmentLoop_ok_at X { t with muxer := some (X.mux.Reset m) } w
    (t.context.segmentSeq + 1) k fuel hk hconf hok
  unfold TransStream.createSegment
  rw [hm]
  simp only
  rw [hloop]
  simp only
  obtain ⟨t2, w2, hws⟩ := writeSpans_some (X.mux.WriteHeader (X.mux.Reset m)).2
    { t with
      muxer := some (X.mux.WriteHeader (X.mux.Reset m)).1,
      context :=
        { t.context with
          segmentSeq := t.context.segmentSeq + 1 + (k : Int),
          file := some ⟨w.nextFd, segPath X t (t.context.segmentSeq + 1 + (k : Int))⟩,
          path := segPath X t (t.context.segmentSeq + 1 + (k : Int)),
          url := segUrl X t (t.context.segmentSeq + 1 + (k : Int)) } }
    { w with
      files := putFile w.files (segPath X t (t.context.segmentSeq + 1 + (k : Int))) [],
      openFds := w.nextFd :: w.openFds,
      nextFd := w.nextFd + 1,
      clock := w.clock + (k + 1),
      trace := w.trace ++ (attempts X t w (t.context.segmentSeq + 1) (k + 1)).map
        (fun a => Event.openFile a.1 a.2) } hbuf hfit
  obtain ⟨f1, f2, f3, f4, f5⟩ := writeSpans_frame _ _ _ _ _ hws
  refine ⟨t2, w2, ?_, f1, f2, f3, f4, f5 hbuf, hws⟩
  have hws2 := hws
  simp only [segPath, segUrl, attempts] at hws2 ⊢
  rw [hws2]

end hls

theorem lookup_map_val (l : List (String × List Byte)) (g : String → List Byte → List Byte)
    (q : String) :
    (l.map (fun p => (p.1, g p.1 p.2))).lookup q = (l.lookup q).map (g q) := by
  induction l with
  | nil => rfl
  | cons a rest ih =>
    obtain ⟨k, v⟩ := a
    simp only [List.map_cons, List.lookup_cons]
    cases hqk : (q == k)
    · simpa using ih
    · have : q = k := by simpa using hqk
      subst this
      rfl

theorem lookup_filter_ne (l : List (String × List Byte)) (name q : String) :
    (l.filter (fun p => p.1 != name)).lookup q = if q = name then none else l.lookup q := by
  induction l with
  | nil => simp
  | cons a rest ih =>
    obtain ⟨k, v⟩ := a
    by_cases hk : k = name
    · have hkb : (k != name) = false := by simpa using hk
      rw [List.filter_cons, hkb]
      simp only [Bool.false_eq_true, if_false, List.lookup_cons]
      rw [ih]
      by_cases hq : q = name
      · rw [if_pos hq, if_pos hq]
      · rw [if_neg hq, if_neg hq]
        have : (q == k) = false := by rw [hk]; simpa using hq
        rw [this]
    · have hkb : (k != name) = true := by simpa using hk
      rw [List.filter_cons, hkb]
      simp only [if_true, List.lookup_cons]
      rw [ih]
      by_cases hq : q = name
      · subst hq
        have : (q == k) = false := by simpa using (Ne.symm hk)
        simp [this]
      · rw [if_neg hq, if_neg hq]

theorem lookup_appendFile (files : List (String × List Byte)) (name q : String)
    (d : List Byte) :
    (appendFile files name d).lookup q =
      if q = name then (files.lookup name).map (fun c => c ++ d) else files.lookup q := by
  unfold appendFile
  rw [lookup_map_val files (fun k v => if k == name then v ++ d else v) q]
  by_cases hq : q = name
  · subst hq
    simp
  · have : (q == name) = false := by simpa using hq
    simp [this, hq]

theorem lookup_putFile (files : List (String × List Byte)) (name q : String)
    (d : List Byte) :
    (putFile files name d).lookup q = if q = name then some d else files.lookup q := by
  unfold putFile
  rw [List.lookup_cons, lookup_filter_ne]
  by_cases hq : q = name
  · subst hq
    simp
  · have : (q == name) = false := by simpa using hq
    rw [this, if_neg hq, if_neg hq]

namespace os

theorem File.Write_read (w : World) (f : File) (data : List Byte) (q : String)
    (hopen : f.fd ∈ w.openFds) (hfault : w.fault w.clock = none) :
    (File.Write w (some f) data).1.read q =
      if q = f.name then (w.read f.name).map (fun c => c ++ data) else w.read q := by
  simp only [File.Write, hopen, hfault, if_true, World.read, World.step]
  exact lookup_appendFile w.files f.name q data

theorem File.Write_clock (w : World) (f : Option File) (data : List Byte) :
    (File.Write w f data).1.clock = w.clock ∨ (File.Write w f data).1.clock = w.clock + 1 := by
  unfold File.Write
  cases f with
  | none => exact Or.inl rfl
  | some g =>
    simp only
    split
    · split
      · exact Or.inr rfl
      · exact Or.inr rfl
    · exact Or.inl rfl

end os

namespace hls

variable {μ : Type}

theorem writeSpan_content_eq (t t1 : TransStream μ) (w w1 : World) (sp : libmpeg.Span)
    (f : os.File) (c : List Byte) (hfile : t.context.file = some f)
    (hopen : f.fd ∈ w.openFds) (hfault : ∀ n, w.fault n = none)
    (hc : w.read f.name = some c)
    (h : t.writeSpan w sp = some (t1, w1)) :
    ∃ c1, w1.read f.name = some c1 ∧ c1 ++ t1.buffered = c ++ t.buffered ++ sp.data := by
  obtain ⟨off, hoff, hd, ht1, hw⟩ := writeSpan_inv t t1 w w1 sp h
  have hb1 : t1.buffered = t.context.writeBuffer.take off ++ sp.data := by
    rw [ht1]
    exact overwrite_take _ _ _ (by omega)
  rcases hw with ⟨ho, hw1⟩ | ⟨ho, hw1⟩
  · refine ⟨c, by rw [hw1]; exact hc, ?_⟩
    rw [hb1, ho]
    simp [TransStream.buffered]
  · refine ⟨c ++ t.buffered, ?_, ?_⟩
    · rw [hw1, hfile, os.File.Write_read w f _ _ hopen (hfault _), if_pos rfl, hc]
      rfl
    · rw [hb1, ho]
      simp

theorem writeSpans_content (sps : List libmpeg.Span) :
    ∀ (t t1 : TransStream μ) (w w1 : World) (f : os.File) (c : List Byte),
      t.context.file = some f → f.fd ∈ w.openFds → (∀ n, w.fault n = none) →
      w.read f.name = some c →
      TransStream.writeSpans t w sps = some (t1, w1) →
      ∃ c1, w1.read f.name = some c1 ∧ c1 ++ t1.buffered = c ++ t.buffered ++ spanBytes sps := by
  induction sps with
  | nil =>
    intro t t1 w w1 f c _ _ _ hc h
    simp only [TransStream.writeSpans, Option.some.injEq, Prod.mk.injEq] at h
    obtain ⟨a, b⟩ := h
    subst a b
    exact ⟨c, hc, by simp [spanBytes]⟩
  | cons sp rest ih =>
    intro t t1 w w1 f c hfile hopen hfault hc h
    simp only [TransStream.writeSpans] at h
    cases hs : t.writeSpan w sp with
    | none => simp [hs] at h
    | some res =>
      obtain ⟨ta, wa⟩ := res
      simp only [hs] at h
      obtain ⟨ca, hca, hcat⟩ := writeSpan_content_eq t ta w wa sp f c hfile hopen hfault hc hs
      obtain ⟨a1, a2, a3, -, -⟩ := writeSpan_frame t ta w wa sp hs
      have hfa : ta.context.file = some f := by rw [a1]; exact hfile
      obtain ⟨c1, hc1, hcat1⟩ := ih ta t1 wa w1 f ca hfa (by rw [a3]; exact hopen)
        (fun n => by rw [a2.1]; exact hfault n) hca h
      refine ⟨c1, hc1, ?_⟩
      rw [hcat1, hcat]
      simp [spanBytes]

end hls

namespace os

end os

namespace hls

variable {μ : Type}

end hls

namespace hls

variable {μ : Type}

/-- `flushSegment` returns whenever the fill level is within the buffer, the
muxer is live and a full playlist has an oldest entry. -/
theorem flushSegment_returns (X : Deps μ) (t : TransStream μ) (w : World) (e : Bool) (m : μ)
    (hbuf : t.context.writeBufferSize ≤ t.context.writeBuffer.length)
    (hm : t.muxer = some m)
    (hpl : t.playlistLength ≤ t.M3U8Writer.Size → t.M3U8Writer.playlist ≠ []) :
    ∃ t2 w2 r, TransStream.flushSegment X t w e = some (t2, w2, r) := by
  obtain ⟨ta, wa, hfb⟩ := flushBuffer_some t w hbuf
  obtain ⟨hta, -, -, -, -⟩ := flushBuffer_spec t ta w wa hfb
  unfold TransStream.flushSegment
  rw [hfb]
  simp only
  cases hcl : os.File.Close wa ta.context.file with
  | mk wb cerr =>
    cases cerr with
    | some err => exact ⟨_, _, _, rfl⟩
    | none =>
      simp only
      obtain ⟨wc, hwc⟩ := removeSurplus_some ta wb (by rw [hta]; exact hpl)
      have hma : ta.muxer = some m := by rw [hta]; exact hm
      rw [hwc, hma]
      simp only
      cases hwr : writeM3U8File (updatePlaylist X ta m wc).2 ta.m3u8File
          (updatePlaylist X ta m wc).1.PlaylistFormat with
      | mk wd werr =>
        cases werr with
        | some err => exact ⟨_, _, _, rfl⟩
        | none => exact ⟨_, _, _, rfl⟩

/-- `flushSegment` completes without error when, in addition, no call fails,
the segment file is open and the playlist file, if any, is open under another
descriptor. -/
theorem flushSegment_succeeds (X : Deps μ) (t : TransStream μ) (w : World) (e : Bool) (m : μ)
    (f : os.File)
    (hbuf : t.context.writeBufferSize ≤ t.context.writeBuffer.length)
    (hm : t.muxer = some m)
    (hpl : t.playlistLength ≤ t.M3U8Writer.Size → t.M3U8Writer.playlist ≠ [])
    (hfile : t.context.file = some f) (hopen : f.fd ∈ w.openFds)
    (hfault : ∀ n, w.fault n = none)
    (hm3 : ∀ g, t.m3u8File = some g → g.fd ∈ w.openFds ∧ g.fd ≠ f.fd) :
    ∃ t2 w2, TransStream.flushSegment X t w e = some (t2, w2, none) := by
  obtain ⟨ta, wa, hfb⟩ := flushBuffer_some t w hbuf
  obtain ⟨hta, hA, hfds, -, -⟩ := flushBuffer_spec t ta w wa hfb
  unfold TransStream.flushSegment
  rw [hfb]
  simp only
  have hfa : ta.context.file = some f := by rw [hta]; exact hfile
  have hcl2 : (os.File.Close wa ta.context.file).2 = none := by
    rw [hfa]
    exact os.File.Close_ok wa f (by rw [hfds]; exact hopen) (by rw [hA.1]; exact hfault _)
  have hclH := os.File.Close_handleOps wa ta.context.file
  have hclF : ∀ d, d ∈ w.openFds → d ≠ f.fd → d ∈ (os.File.Close wa ta.context.file).1.openFds := by
    intro d hd hne
    rw [hfa]
    exact os.File.Close_openFds wa f d (by rw [hfds]; exact hd) hne
  cases hcl : os.File.Close wa ta.context.file with
  | mk wb cerr =>
    rw [hcl] at hcl2 hclH hclF
    simp only at hcl2
    subst hcl2
    simp only
    obtain ⟨wc, hwc⟩ := removeSurplus_some ta wb (by rw [hta]; exact hpl)
    obtain ⟨fc, oc, -, -⟩ := removeSurplus_spec ta wb wc hwc
    have hma : ta.muxer = some m := by rw [hta]; exact hm
    rw [hwc, hma]
    simp only
    have hok := writeM3U8File_ok (updatePlaylist X ta m wc).2 ta.m3u8File
      (updatePlaylist X ta m wc).1.PlaylistFormat
      (fun n => by
        show wc.fault n = none
        rw [fc, hclH.1, hA.1]; exact hfault n)
      (fun g hg => by
        show g.fd ∈ wc.openFds
        rw [oc]
        have := hm3 g (by rw [hta] at hg; exact hg)
        exact hclF g.fd this.1 this.2)
    cases hwr : writeM3U8File (updatePlaylist X ta m wc).2 ta.m3u8File
        (updatePlaylist X ta m wc).1.PlaylistFormat with
    | mk wd werr =>
      rw [hwr] at hok
      simp only at hok
      subst hok
      exact ⟨_, _, rfl⟩

end hls

namespace hls

variable {μ : Type}

end hls

namespace hls

variable {μ : Type}

/-- Every way in which `createSegment` returns without error. -/
theorem createSegment_inv_ok (X : Deps μ) (fuel : Nat) (t t1 : TransStream μ) (w w1 : World)
    (h : TransStream.createSegment X fuel t w = some (t1, w1, none)) :
    ∃ m tl wl sq fl, t.muxer = some m ∧
      createSegmentLoop X fuel { t with muxer := some (X.mux.Reset m) } w
        (t.context.segmentSeq + 1) = some (tl, wl, Except.ok (sq, fl)) ∧
      TransStream.writeSpans
        { tl with
          context := { tl.context with segmentSeq := sq, file := some fl },
          muxer := some (X.mux.WriteHeader (X.mux.Reset m)).1 }
        wl (X.mux.WriteHeader (X.mux.Reset m)).2 = some (t1, w1) := by
  unfold TransStream.createSegment at h
  cases hm : t.muxer with
  | none => simp [hm] at h
  | some m =>
    simp only [hm] at h
    cases hl : createSegmentLoop X fuel { t with muxer := some (X.mux.Reset m) } w
        (t.context.segmentSeq + 1) with
    | none => simp [hl] at h
    | some res =>
      obtain ⟨tl, wl, rl⟩ := res
      simp only [hl] at h
      cases rl with
      | error e => simp at h
      | ok p =>
        obtain ⟨sq, fl⟩ := p
        simp only at h
        cases hws : TransStream.writeSpans
            { tl with
              context := { tl.context with segmentSeq := sq, file := some fl },
              muxer := some (X.mux.WriteHeader (X.mux.Reset m)).1 }
            wl (X.mux.WriteHeader (X.mux.Reset m)).2 with
        | none => simp [hws] at h
        | some p2 =>
          obtain ⟨t2, w2⟩ := p2
          simp only [hws, Option.some.injEq, Prod.mk.injEq, and_true] at h
          obtain ⟨a, b⟩ := h
          subst a b
          exact ⟨m, tl, wl, sq, fl, rfl, hl, hws⟩

/-- C7 as stated fails: with a file already present at the candidate path for
sequence 1, `createSegment` reuses that path, selects sequence 1 and truncates
the file. -/
theorem C7_counterexample :
    (demo.world [("d/1.ts", [1, 2, 3])]).read
        (segPath demo.X (demo.sink 0) ((demo.sink 0).context.segmentSeq + 1))
      = some [1, 2, 3] ∧
    ∃ t1 w1, TransStream.createSegment demo.X 8 (demo.sink 0)
        (demo.world [("d/1.ts", [1, 2, 3])]) = some (t1, w1, none) ∧
      t1.context.segmentSeq = (demo.sink 0).context.segmentSeq + 1 ∧
      t1.context.file = some ⟨3, "d/1.ts"⟩ ∧
      w1.read "d/1.ts" = some [] ∧
      w1.trace = [Event.openFile "d/1.ts" none] :=
  ⟨by decide, _, _, rfl, by decide, by decide, by decide, by decide⟩

/-- C7, amended. `createSegment` opens the candidate path with create and
truncate, not exclusively. When a file already exists at the candidate path
for `s+1` and no call fails, it selects `s+1`, makes the file at that path the
active handle and discards the old contents: afterwards the file holds only
bytes written by this sink (file contents followed by the unflushed buffer
are the bytes buffered before plus the muxer header). A sequence number above
`s+1` is selected only when the first attempt failed with a retryable error. -/
theorem C7_createSegment_truncates_existing (X : Deps μ) (t : TransStream μ) (w : World)
    (m : μ) (hm : t.muxer = some m)
    (hbuf : t.context.writeBufferSize ≤ t.context.writeBuffer.length)
    (hfit : ∀ sp ∈ (X.mux.WriteHeader (X.mux.Reset m)).2,
      Fits t.context.writeBuffer.length sp) :
    (∀ old fuel, w.read (segPath X t (t.context.segmentSeq + 1)) = some old →
      (∀ n, w.fault n = none) → 0 < fuel →
      ∃ t1 w1 written, TransStream.createSegment X fuel t w = some (t1, w1, none) ∧
        t1.context.segmentSeq = t.context.segmentSeq + 1 ∧
        t1.context.file = some ⟨w.nextFd, segPath X t (t.context.segmentSeq + 1)⟩ ∧
        w1.trace.filterMap Event.opened = w.trace.filterMap Event.opened ++
          [(segPath X t (t.context.segmentSeq + 1), none)] ∧
        w1.read (segPath X t (t.context.segmentSeq + 1)) = some written ∧
        written ++ t1.buffered
          = t.buffered ++ spanBytes (X.mux.WriteHeader (X.mux.Reset m)).2) ∧
    (∀ fuel t1 w1, TransStream.createSegment X fuel t w = some (t1, w1, none) →
      t.context.segmentSeq + 1 < t1.context.segmentSeq →
      ∃ e, w.fault w.clock = some e ∧ os.nonRetryable e = false) := by
  constructor
  · intro old fuel _ hfault hfuel
    obtain ⟨t1, w1, hcs, hbo, hops, -, -, -, hws⟩ :=
      createSegment_ok_at X t w m 0 fuel hfuel hm (fun j hj => absurd hj (Nat.not_lt_zero j))
        (hfault _) hbuf hfit
    simp only [Nat.cast_zero, add_zero] at hcs hbo hops hws
    have hcc := fun h1 h2 h3 h4 => writeSpans_content _ _ _ _ _
      ⟨w.nextFd, segPath X t (t.context.segmentSeq + 1)⟩ [] h1 h2 h3 h4 hws
    obtain ⟨c1, hc1, hcat⟩ := hcc rfl (List.mem_cons_self _ _) hfault (by
      show (putFile w.files (segPath X t (t.context.segmentSeq + 1)) []).lookup
        (segPath X t (t.context.segmentSeq + 1)) = some []
      rw [lookup_putFile, if_pos rfl])
    refine ⟨t1, w1, c1, hcs, by rw [hbo], by rw [hbo], ?_, hc1, ?_⟩
    · rw [hops.filterMap_eq _ opened_handleOp]
      simp only [List.filterMap_append, filterMap_opened_attempts]
      simp [attempts, hfault, List.range_succ]
    · rw [hcat]
      rfl
  · intro fuel t1 w1 hcs hlt
    obtain ⟨m2, tl, wl, sq, fl, hm2, hloop, hws⟩ := createSegment_inv_ok X fuel t t1 w w1 hcs
    have hfuel : 0 < fuel := by
      cases fuel with
      | zero => simp [createSegmentLoop] at hloop
      | succ n => exact Nat.succ_pos n
    obtain ⟨hbo, -⟩ := writeSpans_frame _ _ _ _ _ hws
    have hseq : t1.context.segmentSeq = sq := by rw [hbo]
    cases hf : w.fault w.clock with
    | none =>
      have := createSegmentLoop_ok_at X { t with muxer := some (X.mux.Reset m2) } w
        (t.context.segmentSeq + 1) 0 fuel hfuel (fun j hj => absurd hj (Nat.not_lt_zero j))
        (by simpa using hf)
      rw [this] at hloop
      simp only [Nat.cast_zero, add_zero, Option.some.injEq, Prod.mk.injEq,
        Except.ok.injEq] at hloop
      omega
    | some e =>
      refine ⟨e, rfl, ?_⟩
      cases hr : os.nonRetryable e with
      | false => rfl
      | true =>
        have := createSegmentLoop_fatal_at X { t with muxer := some (X.mux.Reset m2) } w
          (t.context.segmentSeq + 1) 0 fuel hfuel e (fun j hj => absurd hj (Nat.not_lt_zero j))
          (by simpa using hf) hr
        rw [this] at hloop
        simp at hloop

/-- C7, amended, at a concrete input: an existing three-byte file at `d/1.ts`
is taken over as segment 1 and afterwards holds no byte of its old contents. -/
theorem C7_createSegment_truncates_existing_witness :
    ∃ t1 w1 written, TransStream.createSegment demo.X 1 (demo.sink 0)
        (demo.world [("d/1.ts", [1, 2, 3])]) = some (t1, w1, none) ∧
      t1.context.segmentSeq = 1 ∧
      w1.read "d/1.ts" = some written ∧
      written ++ t1.buffered = [71, 64] := by
  obtain ⟨t1, w1, written, h1, h2, -, -, h5, h6⟩ :=
    (C7_createSegment_truncates_existing demo.X (demo.sink 0)
      (demo.world [("d/1.ts", [1, 2, 3])]) 0 rfl (by decide) (by decide)).1
      [1, 2, 3] 1 (by decide) (fun _ => rfl) (by decide)
  exact ⟨t1, w1, written, h1, h2, h5, h6⟩

end hls

namespace hls

variable {μ : Type}

/-- C5 as stated fails in two ways. A packet with the negative track index
`-1` is not rejected: `Input` muxes it, changes the buffer fill level and
reports output. And on a sink whose muxer has been released by `Close`, `Input`
does not return at all (nil interface call). -/
theorem C5_counterexample :
    (∃ t1 w1, TransStream.Input demo.X 1 (demo.sink 0) (demo.world []) (demo.audio (-1) [7])
        = some (t1, w1, ⟨none, -1, true, none⟩) ∧
      t1.context.writeBufferSize = 1 ∧ t1.muxer = some 90000) ∧
    TransStream.Input demo.X 1 { demo.sink 0 with muxer := none } (demo.world [])
        (demo.audio 5 [7]) = none :=
  ⟨⟨_, _, rfl, by decide, by decide⟩, rfl⟩

/-- C5, amended. On a sink with a live muxer, a packet whose track index is
at least `TrackCount` makes `Input` return the track-not-available error with
`producedOutput = false`; the sink state (segment context, playlist, pending
set, muxer) and the outside world (files, trace of calls) are unchanged. -/
theorem C5_Input_rejects_unknown_track (X : Deps μ) (fuel : Nat) (t : TransStream μ)
    (w : World) (m : μ) (packet : utils.AVPacket) (hm : t.muxer = some m)
    (hidx : X.mux.TrackCount m ≤ packet.Index) :
    TransStream.Input X fuel t w packet
      = some (t, w, ⟨none, -1, false, some GoError.trackNotAvailable⟩) := by
  unfold TransStream.Input
  rw [hm]
  simp only
  rw [if_pos hidx]

/-- C5, amended, at a concrete input: index 1 on a muxer with one track. -/
theorem C5_Input_rejects_unknown_track_witness :
    demo.X.mux.TrackCount 0 ≤ (demo.audio 1 [7]).Index ∧
    TransStream.Input demo.X 1 (demo.sink 0) (demo.world []) (demo.audio 1 [7])
      = some (demo.sink 0, demo.world [], ⟨none, -1, false, some GoError.trackNotAvailable⟩) :=
  ⟨by decide,
   C5_Input_rejects_unknown_track demo.X 1 (demo.sink 0) (demo.world []) 0 (demo.audio 1 [7])
    rfl (by decide)⟩

end hls

namespace hls

/-- C3 at a concrete input: the second segment completes while consumers 11
and 12 wait; each is sent the playlist text once and the set is emptied. -/
theorem C3_flushSegment_releases_pending_witness :
    ∃ t1 w1, TransStream.flushSegment demo.X (demo.live 90000 [11, 12] [demo.seg0])
        (demo.liveWorld [] (fun _ => none)) false = some (t1, w1, none) ∧
      w1.trace.filterMap Event.sent = [(11, "0.ts;1.ts;"), (12, "0.ts;1.ts;")] ∧
      sinkList t1.m3u8Sinks = [] :=
  ⟨_, _, rfl,
    (C3_flushSegment_releases_pending demo.X (demo.live 90000 [11, 12] [demo.seg0]) _
      (demo.liveWorld [] (fun _ => none)) _ false (by decide) rfl).2.2.1 (by decide)⟩

/-- C4 at a concrete input: the sink is closed while its first segment is
open and consumers 11 and 12 wait; both receive nil, none stays pending. -/
theorem C4_Close_notifies_pending_witness :
    ∃ t1 w1 r, TransStream.Close demo.X (demo.live 0 [11, 12] [])
        (demo.liveWorld [] (fun _ => none)) = some (t1, w1, r) ∧
      t1.m3u8Sinks = none ∧
      w1.trace.filterMap Event.notified = [11, 12] ∧
      w1.trace.filterMap Event.nilNotified = [11, 12] ∧
      w1.trace.filterMap Event.sent = [] :=
  ⟨_, _, _, rfl,
    (C4_Close_notifies_pending demo.X (demo.live 0 [11, 12] []) _
      (demo.liveWorld [] (fun _ => none)) _ _ rfl).1,
    (C4_Close_notifies_pending demo.X (demo.live 0 [11, 12] []) _
      (demo.liveWorld [] (fun _ => none)) _ _ rfl).2.2.1,
    (C4_Close_notifies_pending demo.X (demo.live 0 [11, 12] []) _
      (demo.liveWorld [] (fun _ => none)) _ _ rfl).2.2.2 (Or.inl (by decide))⟩

/-- C9 at a concrete input: closing the toy sink twice. -/
theorem C9_Close_idempotent_witness :
    ∃ t1 w1 r, TransStream.Close demo.X (demo.live 0 [11, 12] [])
        (demo.liveWorld [] (fun _ => none)) = some (t1, w1, r) ∧
      TransStream.Close demo.X t1 w1 = some (t1, w1, ⟨none, 0, none⟩) ∧
      t1.context.file = none ∧ t1.muxer = none ∧ t1.m3u8File = none ∧ t1.m3u8Sinks = none :=
  ⟨_, _, _, rfl,
    C9_Close_idempotent demo.X (demo.live 0 [11, 12] []) _
      (demo.liveWorld [] (fun _ => none)) _ _ rfl⟩

end hls
